import Mathlib

/-!
Shallow embedding of the terra terrain data and cache management core
(src/graph/mod.rs, src/terrain/raster.rs, src/terrain/dem.rs,
src/terrain/quadtree/mod.rs), together with theorems settling the claims of
the natural-language specification against this embedding.

Modelling conventions:
* Rust machine integers are modelled by ℤ / ℕ, with an explicit reduction
  modulo 2 ^ w at the points where overflow can matter.
* Rust f64 values are modelled by ℚ.  The claims settled here concern
  control flow (guards, asserts, cache bookkeeping) and exact arithmetic
  formulas, which ℚ represents faithfully; floating-point rounding is out of
  scope of the claims.
* Fallible Rust code returns Option; a possible panic (assert, unwrap) is
  modelled by Except String or by Option at the call in question.
-/

namespace Terra

/-- Sector(i32, i32), a signed grid cell coordinate (graph/mod.rs line 85). -/
structure Sector where
  fst : Int
  snd : Int
deriving DecidableEq, Repr

/-- Per-axis magnitude used by Layer::compute_sector_index
(`if sector.0 >= 0 { sector.0 } else { -sector.0 - 1 } as u64`).
For every i32 input the selected value is non-negative and at most
2 ^ 31 - 1 (this also matches the wrapped value at i32 minimum), so the
`as u64` cast is exact and the result is the mathematical value. -/
def axisMag (s : Int) : Nat := (if 0 ≤ s then s else -s - 1).toNat

/-- Quadrant tag of a sector, from the `match (sector.0 >= 0, sector.1 >= 0)`
in Layer::compute_sector_index (graph/mod.rs lines 154-159). -/
def quadrant (s : Sector) : Nat :=
  if 0 ≤ s.fst then (if 0 ≤ s.snd then 0 else 2)
  else (if 0 ≤ s.snd then 1 else 3)

/-- Ring part of the sector index: the `if ax > ay { ax*ax + 2*ay + 1 }
else { ay*ay + 2*ax }` of Layer::compute_sector_index, before the final
`* 4 + q`. -/
def ringPart (a₁ a₂ : Nat) : Nat :=
  if a₂ < a₁ then a₁ * a₁ + 2 * a₂ + 1 else a₂ * a₂ + 2 * a₁

/-- Ring radius of a sector: the larger of the two axis magnitudes.  The
spec calls this the ring distance of the sector. -/
def ringRadius (s : Sector) : Nat := max (axisMag s.fst) (axisMag s.snd)

namespace Layer

/-- Layer::compute_sector_index (graph/mod.rs lines 143-165).  All u64
arithmetic is carried out in ℕ with a final reduction modulo 2 ^ 64; for
i32-range inputs no intermediate value reaches 2 ^ 64 (proved below as
compute_sector_index_lt), so the reduction is the identity there. -/
def compute_sector_index (s : Sector) : Nat :=
  (ringPart (axisMag s.fst) (axisMag s.snd) * 4 + quadrant s) % 2 ^ 64

end Layer

lemma quadrant_lt_four (s : Sector) : quadrant s < 4 := by
  unfold quadrant
  split <;> split <;> omega

lemma ringPart_lower (a₁ a₂ : Nat) : max a₁ a₂ * max a₁ a₂ ≤ ringPart a₁ a₂ := by
  unfold ringPart
  split
  · rw [Nat.max_eq_left (by omega)]
    omega
  · rw [Nat.max_eq_right (by omega)]
    omega

lemma ringPart_upper (a₁ a₂ : Nat) :
    ringPart a₁ a₂ ≤ max a₁ a₂ * max a₁ a₂ + 2 * max a₁ a₂ := by
  unfold ringPart
  split
  · rw [Nat.max_eq_left (by omega)]
    omega
  · rw [Nat.max_eq_right (by omega)]
    omega

lemma ringPart_max_eq {a₁ a₂ b₁ b₂ : Nat}
    (h : ringPart a₁ a₂ = ringPart b₁ b₂) : max a₁ a₂ = max b₁ b₂ := by
  have la := ringPart_lower a₁ a₂
  have ua := ringPart_upper a₁ a₂
  have lb := ringPart_lower b₁ b₂
  have ub := ringPart_upper b₁ b₂
  set m := max a₁ a₂ with hm
  set n := max b₁ b₂ with hn
  rcases lt_trichotomy m n with hlt | heq | hgt
  · exfalso
    have hsq : (m + 1) * (m + 1) ≤ n * n :=
      Nat.mul_le_mul (by omega) (by omega)
    have hexp : (m + 1) * (m + 1) = m * m + 2 * m + 1 := by ring
    omega
  · exact heq
  · exfalso
    have hsq : (n + 1) * (n + 1) ≤ m * m :=
      Nat.mul_le_mul (by omega) (by omega)
    have hexp : (n + 1) * (n + 1) = n * n + 2 * n + 1 := by ring
    omega

lemma ringPart_inj {a₁ a₂ b₁ b₂ : Nat}
    (h : ringPart a₁ a₂ = ringPart b₁ b₂) : a₁ = b₁ ∧ a₂ = b₂ := by
  have hmax := ringPart_max_eq h
  unfold ringPart at h
  split at h <;> split at h
  · -- both in the ax > ay branch: the larger magnitude is the first axis
    have e1 : a₁ = b₁ := by
      rw [Nat.max_eq_left (by omega), Nat.max_eq_left (by omega)] at hmax
      exact hmax
    subst e1
    omega
  · -- mixed branches: parity of the ring part differs, impossible
    exfalso
    have e1 : a₁ = b₂ := by
      rw [Nat.max_eq_left (by omega), Nat.max_eq_right (by omega)] at hmax
      exact hmax
    subst e1
    omega
  · exfalso
    have e1 : a₂ = b₁ := by
      rw [Nat.max_eq_right (by omega), Nat.max_eq_left (by omega)] at hmax
      exact hmax
    subst e1
    omega
  · have e1 : a₂ = b₂ := by
      rw [Nat.max_eq_right (by omega), Nat.max_eq_right (by omega)] at hmax
      exact hmax
    subst e1
    omega

lemma sector_eq_of_parts {a b : Sector}
    (h1 : axisMag a.fst = axisMag b.fst) (h2 : axisMag a.snd = axisMag b.snd)
    (hq : quadrant a = quadrant b) : a = b := by
  cases a with
  | mk ax ay =>
    cases b with
    | mk bx br =>
      simp only [axisMag, quadrant] at h1 h2 hq ⊢
      simp only [Sector.mk.injEq]
      constructor
      · by_cases hx : (0:Int) ≤ ax <;> by_cases hy : (0:Int) ≤ bx <;>
          simp only [hx, hy, if_pos, if_neg, if_true, if_false] at h1 hq <;>
          first
            | omega
            | (by_cases h3 : (0:Int) ≤ ay <;> by_cases h4 : (0:Int) ≤ br <;>
                simp_all <;> omega)
      · by_cases hx : (0:Int) ≤ ax <;> by_cases hy : (0:Int) ≤ bx <;>
          simp only [hx, hy, if_pos, if_neg, if_true, if_false] at h2 hq <;>
          first
            | omega
            | (by_cases h3 : (0:Int) ≤ ay <;> by_cases h4 : (0:Int) ≤ br <;>
                simp_all <;> omega)

/-- Raw (pre-modulo) value of the sector index. -/
def sectorIndexRaw (s : Sector) : Nat :=
  ringPart (axisMag s.fst) (axisMag s.snd) * 4 + quadrant s

lemma sectorIndexRaw_lt {s : Sector} (h : ringRadius s ≤ 2 ^ 31 - 1) :
    sectorIndexRaw s < 2 ^ 64 := by
  unfold sectorIndexRaw
  have hub := ringPart_upper (axisMag s.fst) (axisMag s.snd)
  have hq := quadrant_lt_four s
  set m := max (axisMag s.fst) (axisMag s.snd) with hm
  have hmr : m ≤ 2 ^ 31 - 1 := h
  have hsq : (m + 1) * (m + 1) ≤ 2 ^ 31 * 2 ^ 31 :=
    Nat.mul_le_mul (by omega) (by omega)
  have hexp : (m + 1) * (m + 1) = m * m + 2 * m + 1 := by ring
  have : (2:Nat) ^ 31 * 2 ^ 31 = 2 ^ 62 := by norm_num
  have : (4:Nat) * 2 ^ 62 = 2 ^ 64 := by norm_num
  omega

lemma compute_sector_index_eq_raw {s : Sector} (h : ringRadius s ≤ 2 ^ 31 - 1) :
    Layer.compute_sector_index s = sectorIndexRaw s :=
  Nat.mod_eq_of_lt (sectorIndexRaw_lt h)

/-- C5: compute_sector_index maps Sector(0,0) to 0 and is injective on all
sectors whose ring radius stays within a bound R that avoids u64 overflow
(for i32 sectors the largest such bound, 2^31 - 1, always holds). -/
theorem compute_sector_index_zero_and_injective
    (a b : Sector) (R : Nat) (hR : R ≤ 2 ^ 31 - 1)
    (ha : ringRadius a ≤ R) (hb : ringRadius b ≤ R) (hne : a ≠ b) :
    Layer.compute_sector_index ⟨0, 0⟩ = 0 ∧
      Layer.compute_sector_index a ≠ Layer.compute_sector_index b := by
  constructor
  · rfl
  · intro heq
    rw [compute_sector_index_eq_raw (le_trans ha hR),
        compute_sector_index_eq_raw (le_trans hb hR)] at heq
    unfold sectorIndexRaw at heq
    have hqa := quadrant_lt_four a
    have hqb := quadrant_lt_four b
    have hring : ringPart (axisMag a.fst) (axisMag a.snd)
        = ringPart (axisMag b.fst) (axisMag b.snd) := by omega
    have hq : quadrant a = quadrant b := by omega
    obtain ⟨h1, h2⟩ := ringPart_inj hring
    exact hne (sector_eq_of_parts h1 h2 hq)

/-- Closed witness for compute_sector_index_zero_and_injective, instantiated
at the two sectors from the spec scenario. -/
theorem compute_sector_index_zero_and_injective_witness :
    Layer.compute_sector_index ⟨0, 0⟩ = 0 ∧
      Layer.compute_sector_index ⟨1, 1⟩ ≠ Layer.compute_sector_index ⟨-3, -1⟩ :=
  compute_sector_index_zero_and_injective ⟨1, 1⟩ ⟨-3, -1⟩ (2 ^ 31 - 1)
    (le_refl _) (by decide) (by decide) (by decide)

/-- C6: strictly larger ring radius gives a strictly larger sector index,
within the overflow-free domain. -/
theorem compute_sector_index_ring_monotone
    (a b : Sector) (hb : ringRadius b ≤ 2 ^ 31 - 1)
    (h : ringRadius a < ringRadius b) :
    Layer.compute_sector_index a < Layer.compute_sector_index b := by
  have ha : ringRadius a ≤ 2 ^ 31 - 1 := by omega
  rw [compute_sector_index_eq_raw ha, compute_sector_index_eq_raw hb]
  unfold sectorIndexRaw
  have hua := ringPart_upper (axisMag a.fst) (axisMag a.snd)
  have hlb := ringPart_lower (axisMag b.fst) (axisMag b.snd)
  have hqa := quadrant_lt_four a
  have hqb := quadrant_lt_four b
  set m := max (axisMag a.fst) (axisMag a.snd) with hm
  set n := max (axisMag b.fst) (axisMag b.snd) with hn
  have hmn : m < n := h
  have hsq : (m + 1) * (m + 1) ≤ n * n := Nat.mul_le_mul (by omega) (by omega)
  have hexp : (m + 1) * (m + 1) = m * m + 2 * m + 1 := by ring
  omega

/-- Closed witness for compute_sector_index_ring_monotone. -/
theorem compute_sector_index_ring_monotone_witness :
    Layer.compute_sector_index ⟨0, 0⟩ < Layer.compute_sector_index ⟨1, 1⟩ :=
  compute_sector_index_ring_monotone ⟨0, 0⟩ ⟨1, 1⟩ (by decide) (by decide)

/-- Scenario values from the repository's own test
(graph/mod.rs lines 462-472). -/
example :
    Layer.compute_sector_index ⟨0, 0⟩ = 0 ∧
    Layer.compute_sector_index ⟨1, 1⟩ = 3 * 4 ∧
    Layer.compute_sector_index ⟨1, 2⟩ = 6 * 4 ∧
    Layer.compute_sector_index ⟨2, 3⟩ = 13 * 4 ∧
    Layer.compute_sector_index ⟨4, 1⟩ = 19 * 4 ∧
    Layer.compute_sector_index ⟨-3, -1⟩ = 5 * 4 + 3 ∧
    Layer.compute_sector_index ⟨-3, -4⟩ = 13 * 4 + 3 := by
  decide

/-! ### TileCache (graph/mod.rs lines 24-82)

The LinkedHashMap of the linked_hash_map crate keeps its entries in insertion
order: `insert` of a fresh key attaches it at the back, `pop_back` removes the
most recently inserted entry, `get` leaves the order unchanged.  It is
modelled by an association list whose head is the front (the oldest entry).
The GPU image upload at the end of TileCache::insert is an external side
effect without influence on the cache state and is not modelled. -/

/-- linked_hash_map lookup (`get`); the order is unchanged. -/
def lhmGet {K : Type} [DecidableEq K] (l : List (K × Nat)) (k : K) : Option Nat :=
  (l.find? (fun p => decide (p.1 = k))).map (·.2)

/-- linked_hash_map `pop_back`: removes and returns the most recently
inserted entry. -/
def lhmPopBack {K : Type} (l : List (K × Nat)) :
    Option ((K × Nat) × List (K × Nat)) :=
  match l.getLast? with
  | none => none
  | some p => some (p, l.dropLast)

/-- linked_hash_map `insert`, attaching the key at the back (an existing
binding of the key is detached first; TileCache::insert only ever inserts
keys that are not present). -/
def lhmInsert {K : Type} [DecidableEq K] (l : List (K × Nat)) (k : K) (v : Nat) :
    List (K × Nat) :=
  (l.filter (fun p => decide (p.1 ≠ k))) ++ [(k, v)]

/-- Fence<B> (graph/mod.rs line 24): an owned optional backend fence handle;
the backend handle is modelled by ℕ. -/
structure Fence where
  handle : Option Nat
deriving DecidableEq, Repr

/-- Fence::is_done (graph/mod.rs lines 26-34).  `status` models
Device::get_fence_status, with none for a device error (`.ok()` maps an error
to no signal).  Returns the boolean result together with the updated fence. -/
def Fence.is_done (status : Nat → Option Bool) (f : Fence) : Bool × Fence :=
  match f.handle with
  | some h => if (status h).getD false then (true, Fence.mk none) else (false, f)
  | none => (true, f)

/-- TileCache (graph/mod.rs lines 37-44); the GPU image handle and resolution
play no part in the cache bookkeeping and are omitted. -/
structure TileCache (K : Type) where
  size : Nat
  contents : List (K × Fence)
  sector_indices : List (K × Nat)
deriving DecidableEq, Repr

/-- TileCache::insert (graph/mod.rs lines 46-81).  Returns none exactly when
the Rust code would panic (the `pop_back().unwrap()` on an empty map, which
is reachable only for size 0).  Otherwise returns the updated cache and the
slot index used for the key. -/
def TileCache.insert {K : Type} [DecidableEq K] (c : TileCache K) (key : K) :
    Option (TileCache K × Nat) :=
  match lhmGet c.sector_indices key with
  | some index => some (c, index)
  | none =>
    if c.sector_indices.length = c.size then
      match lhmPopBack c.sector_indices with
      | none => none
      | some ((_, index), rest) =>
        some ({ c with
                  contents := c.contents.set index (key, Fence.mk none),
                  sector_indices := lhmInsert rest key index }, index)
    else
      some ({ c with
                contents := c.contents ++ [(key, Fence.mk none)],
                sector_indices := lhmInsert c.sector_indices key
                  c.contents.length }, c.contents.length)

/-- Run of TileCache::insert used to evaluate the eviction behaviour: a
capacity-2 cache receives the distinct keys 10, 11, 12 in this order. -/
def tileCacheEvictionRun : Option (TileCache Nat) :=
  (TileCache.insert ⟨2, [], []⟩ 10).bind fun p =>
    (p.1.insert 11).bind fun q => (q.1.insert 12).map (·.1)

/-- C1 evaluation: with capacity 2, after inserting keys 10 then 11 the cache
is full; inserting the new key 12 evicts key 11 — the most recently touched
resident key — while key 10, the least recently touched one, stays resident
in slot 0.  The claimed LRU eviction would instead evict key 10. -/
theorem tile_cache_insert_evicts_most_recently_inserted :
    tileCacheEvictionRun.map
        (fun c => (lhmGet c.sector_indices 10, lhmGet c.sector_indices 11,
          lhmGet c.sector_indices 12))
      = some (some 0, none, some 1) := by
  decide

/-- State invariant of TileCache: contents and index map have equal length,
at most `size` slots are occupied, keys are unique, the key-to-slot map is
injective, and every slot index is in range. -/
def TileCache.Inv {K : Type} (c : TileCache K) : Prop :=
  c.contents.length = c.sector_indices.length ∧
  c.contents.length ≤ c.size ∧
  (c.sector_indices.map Prod.fst).Nodup ∧
  (c.sector_indices.map Prod.snd).Nodup ∧
  ∀ p ∈ c.sector_indices, p.2 < c.contents.length

lemma lhmGet_eq_none_iff {K : Type} [DecidableEq K] {l : List (K × Nat)} {k : K} :
    lhmGet l k = none ↔ ∀ p ∈ l, p.1 ≠ k := by
  unfold lhmGet
  simp [List.find?_eq_none]

lemma lhmInsert_of_not_mem {K : Type} [DecidableEq K] {l : List (K × Nat)}
    {k : K} (h : ∀ p ∈ l, p.1 ≠ k) (v : Nat) :
    lhmInsert l k v = l ++ [(k, v)] := by
  unfold lhmInsert
  congr 1
  exact List.filter_eq_self.mpr (fun p hp => by simpa using h p hp)

lemma lhmPopBack_eq_some {K : Type} {l rest : List (K × Nat)} {p : K × Nat}
    (h : lhmPopBack l = some (p, rest)) : l = rest ++ [p] := by
  unfold lhmPopBack at h
  cases hl : l.getLast? with
  | none => rw [hl] at h; exact absurd h (by simp)
  | some q =>
    rw [hl] at h
    simp only [Option.some.injEq, Prod.mk.injEq] at h
    obtain ⟨hq, hrest⟩ := h
    subst hq hrest
    exact (List.dropLast_append_getLast? q hl).symm

/-- TileCache::insert preserves the configured capacity. -/
lemma TileCache.insert_size {K : Type} [DecidableEq K] {c c' : TileCache K}
    {key : K} {i : Nat} (h : c.insert key = some (c', i)) : c'.size = c.size := by
  unfold TileCache.insert at h
  cases hg : lhmGet c.sector_indices key with
  | some j => rw [hg] at h; dsimp only at h; simp_all
  | none =>
    rw [hg] at h
    dsimp only at h
    split at h
    · cases hp : lhmPopBack c.sector_indices with
      | none => rw [hp] at h; exact absurd h (by simp)
      | some q =>
        rw [hp] at h
        dsimp only at h
        obtain ⟨q', rest⟩ := q
        obtain ⟨k₀, i₀⟩ := q'
        simp only [Option.some.injEq, Prod.mk.injEq] at h
        rw [← h.1]
    · simp only [Option.some.injEq, Prod.mk.injEq] at h
      rw [← h.1]

/-- TileCache::insert preserves the state invariant. -/
lemma TileCache.insert_inv {K : Type} [DecidableEq K] {c c' : TileCache K}
    {key : K} {i : Nat} (hInv : c.Inv) (h : c.insert key = some (c', i)) :
    c'.Inv := by
  obtain ⟨hlen, hcap, hkeys, hslots, hrange⟩ := hInv
  unfold TileCache.insert at h
  cases hg : lhmGet c.sector_indices key with
  | some j =>
    rw [hg] at h
    dsimp only at h
    simp only [Option.some.injEq, Prod.mk.injEq] at h
    rw [← h.1]
    exact ⟨hlen, hcap, hkeys, hslots, hrange⟩
  | none =>
    have hfresh := lhmGet_eq_none_iff.mp hg
    rw [hg] at h
    dsimp only at h
    split at h
    · -- full: evict the popped entry and reuse its slot
      rename_i hfull
      cases hp : lhmPopBack c.sector_indices with
      | none => rw [hp] at h; exact absurd h (by simp)
      | some q =>
        rw [hp] at h
        dsimp only at h
        obtain ⟨⟨k₀, i₀⟩, rest⟩ := q
        simp only [Option.some.injEq, Prod.mk.injEq] at h
        obtain ⟨hc', hi⟩ := h
        have hsplit := lhmPopBack_eq_some hp
        have hfresh' : ∀ p ∈ rest, p.1 ≠ key := by
          intro p hp'
          exact hfresh p (by rw [hsplit]; exact List.mem_append_left _ hp')
        have hinsert := lhmInsert_of_not_mem hfresh' i₀
        have hi₀ : i₀ < c.contents.length := by
          apply hrange (k₀, i₀)
          rw [hsplit]
          simp
        subst hc'
        refine ⟨?_, ?_, ?_, ?_, ?_⟩
        · simp only [hinsert, List.length_set, List.length_append,
            List.length_singleton]
          have : c.sector_indices.length = rest.length + 1 := by
            rw [hsplit]; simp
          omega
        · simpa using hcap
        · simp only [hinsert, List.map_append]
          have : (rest.map Prod.fst ++ [k₀]).Nodup := by
            have := hkeys
            rw [hsplit] at this
            simpa using this
          rw [List.nodup_append] at this ⊢
          refine ⟨this.1, by simp, ?_⟩
          intro a ha hb
          simp only [List.map_cons, List.map_nil, List.mem_singleton] at hb
          subst hb
          simp only [List.mem_map] at ha
          obtain ⟨p, hpmem, hpe⟩ := ha
          exact hfresh' p hpmem hpe
        · simp only [hinsert, List.map_append]
          have := hslots
          rw [hsplit] at this
          simpa using this
        · intro p hp'
          simp only [hinsert, List.mem_append, List.mem_singleton] at hp'
          simp only [List.length_set]
          rcases hp' with hp' | hp'
          · exact hrange p (by rw [hsplit]; exact List.mem_append_left _ hp')
          · subst hp'
            exact hi₀
    · -- not full: allocate the next slot
      rename_i hnotfull
      simp only [Option.some.injEq, Prod.mk.injEq] at h
      obtain ⟨hc', hi⟩ := h
      have hinsert := lhmInsert_of_not_mem hfresh c.contents.length
      subst hc'
      refine ⟨?_, ?_, ?_, ?_, ?_⟩
      · rw [hinsert]
        simp only [List.length_append, List.length_singleton]
        omega
      · simp only [List.length_append, List.length_singleton]
        omega
      · simp only [hinsert, List.map_append]
        rw [List.nodup_append]
        refine ⟨hkeys, by simp, ?_⟩
        intro a ha hb
        simp only [List.map_cons, List.map_nil, List.mem_singleton] at hb
        subst hb
        simp only [List.mem_map] at ha
        obtain ⟨p, hpmem, hpe⟩ := ha
        exact hfresh p hpmem hpe
      · simp only [hinsert, List.map_append]
        rw [List.nodup_append]
        refine ⟨hslots, by simp, ?_⟩
        intro a ha hb
        simp only [List.map_cons, List.map_nil, List.mem_singleton] at hb
        subst hb
        simp only [List.mem_map] at ha
        obtain ⟨p, hpmem, hpe⟩ := ha
        have := hrange p hpmem
        omega
      · intro p hp'
        simp only [hinsert, List.mem_append, List.mem_singleton] at hp'
        simp only [List.length_append, List.length_singleton]
        rcases hp' with hp' | hp'
        · have := hrange p hp'
          omega
        · subst hp'
          simp

/-- Folding TileCache::insert over a list of keys, stopping at a panic. -/
def TileCache.insertAll {K : Type} [DecidableEq K] (c : TileCache K) :
    List K → Option (TileCache K)
  | [] => some c
  | k :: ks =>
    match c.insert k with
    | none => none
    | some (c', _) => c'.insertAll ks

lemma TileCache.insertAll_inv {K : Type} [DecidableEq K] {ks : List K} :
    ∀ {c c' : TileCache K}, c.Inv → c.insertAll ks = some c' →
      c'.Inv ∧ c'.size = c.size := by
  induction ks with
  | nil =>
    intro c c' hInv h
    simp only [insertAll, Option.some.injEq] at h
    subst h
    exact ⟨hInv, rfl⟩
  | cons k ks ih =>
    intro c c' hInv h
    simp only [insertAll] at h
    cases hins : c.insert k with
    | none => rw [hins] at h; exact absurd h (by simp)
    | some p =>
      rw [hins] at h
      obtain ⟨c₁, i⟩ := p
      obtain ⟨hInv', hsize⟩ := ih (TileCache.insert_inv hInv hins) h
      exact ⟨hInv', by rw [hsize, TileCache.insert_size hins]⟩

/-- C8: starting from an empty TileCache of capacity N, after any sequence of
insert calls (each modelling the admission step of add_missing/load_missing)
that completes without panicking, the number of occupied slots never exceeds
N and the key-to-slot mapping is injective (at most one live key per slot). -/
theorem tile_cache_capacity_and_slot_injective {K : Type} [DecidableEq K]
    (N : Nat) (ks : List K) (c : TileCache K)
    (h : TileCache.insertAll ⟨N, [], []⟩ ks = some c) :
    c.contents.length ≤ N ∧ (c.sector_indices.map Prod.snd).Nodup := by
  have hInv0 : (⟨N, [], []⟩ : TileCache K).Inv := by
    refine ⟨rfl, by simp, by simp, by simp, by simp⟩
  obtain ⟨hInv, hsize⟩ := TileCache.insertAll_inv hInv0 h
  refine ⟨?_, hInv.2.2.2.1⟩
  have := hInv.2.1
  rw [hsize] at this
  exact this

/-- Closed witness for tile_cache_capacity_and_slot_injective: three distinct
keys into a capacity-2 cache. -/
theorem tile_cache_capacity_and_slot_injective_witness :
    (⟨2, [(5, Fence.mk none), (7, Fence.mk none)], [(5, 0), (7, 1)]⟩ :
        TileCache Nat).contents.length ≤ 2 ∧
      (((⟨2, [(5, Fence.mk none), (7, Fence.mk none)], [(5, 0), (7, 1)]⟩ :
        TileCache Nat)).sector_indices.map Prod.snd).Nodup :=
  tile_cache_capacity_and_slot_injective 2 [5, 6, 7] _ (by decide)

/-- C10: when TileCache::insert stores a key that was not already resident,
the slot it returns holds the key with the fence Fence(None), and the first
Fence::is_done call on that fence returns true for every device status
oracle, without consulting it. -/
theorem tile_cache_insert_fresh_fence_done {K : Type} [DecidableEq K]
    (c c' : TileCache K) (key : K) (i : Nat)
    (hInv : c.Inv) (hfresh : lhmGet c.sector_indices key = none)
    (h : c.insert key = some (c', i)) :
    c'.contents[i]? = some (key, Fence.mk none) ∧
      ∀ status, Fence.is_done status (Fence.mk none) = (true, Fence.mk none) := by
  obtain ⟨hlen, hcap, hkeys, hslots, hrange⟩ := hInv
  refine ⟨?_, fun status => rfl⟩
  unfold TileCache.insert at h
  rw [hfresh] at h
  dsimp only at h
  split at h
  · cases hp : lhmPopBack c.sector_indices with
    | none => rw [hp] at h; exact absurd h (by simp)
    | some q =>
      rw [hp] at h
      dsimp only at h
      obtain ⟨⟨k₀, i₀⟩, rest⟩ := q
      simp only [Option.some.injEq, Prod.mk.injEq] at h
      obtain ⟨hc', hi⟩ := h
      have hsplit := lhmPopBack_eq_some hp
      have hi₀ : i₀ < c.contents.length := by
        apply hrange (k₀, i₀)
        rw [hsplit]
        simp
      subst hc'
      subst hi
      simp only
      rw [List.getElem?_set_self (by omega)]
  · simp only [Option.some.injEq, Prod.mk.injEq] at h
    obtain ⟨hc', hi⟩ := h
    subst hc'
    subst hi
    simp

/-- Closed witness for tile_cache_insert_fresh_fence_done. -/
theorem tile_cache_insert_fresh_fence_done_witness :
    ((⟨1, [(3, Fence.mk none)], [(3, 0)]⟩ : TileCache Nat).contents[0]?
        = some (3, Fence.mk none)) ∧
      ∀ status, Fence.is_done status (Fence.mk none) = (true, Fence.mk none) := by
  have h := tile_cache_insert_fresh_fence_done
    (⟨1, [], []⟩ : TileCache Nat) ⟨1, [(3, Fence.mk none)], [(3, 0)]⟩ 3 0
    (by refine ⟨rfl, by simp, by simp, by simp, by simp⟩) (by decide) (by decide)
  exact h

/-! ### Raster, GlobalRaster and DigitalElevationModel
(terrain/raster.rs, terrain/dem.rs); f64 values modelled by ℚ. -/

/-- Saturating `floor() as usize` cast of an f64 value, over ℚ (a negative
float casts to 0). -/
def usizeOfFloor (q : ℚ) : Nat := (⌊q⌋).toNat

/-- Raster<T> (raster.rs lines 48-58). -/
structure Raster where
  width : Nat
  height : Nat
  bands : Nat
  cell_size : ℚ
  latitude_llcorner : ℚ
  longitude_llcorner : ℚ
  values : List ℚ
deriving DecidableEq, Repr

/-- Value fetch values[(x + y*width)*bands + band].  Rust indexing panics
out of bounds; the theorems below evaluate it only at indices that are in
bounds for well-formed rasters, so the default 0 stands for no real case. -/
def Raster.sample (r : Raster) (x y band : Nat) : ℚ :=
  r.values.getD ((x + y * r.width) * r.bands + band) 0

/-- Raster::interpolate (raster.rs lines 91-115).  The
`assert!(band < self.bands)` is the error case; `.ok none` is the
out-of-extent early return.  `(self.height - 1) as f64` is usize subtraction
(exact for height ≥ 1; for height = 0 the guard yields none either way). -/
def Raster.interpolate (r : Raster) (latitude longitude : ℚ) (band : Nat) :
    Except String (Option ℚ) :=
  if ¬ band < r.bands then .error "assertion failed: band < self.bands" else
  let x := (longitude - r.longitude_llcorner) / r.cell_size
  let y := ((r.height - 1 : Nat) : ℚ) - (latitude - r.latitude_llcorner) / r.cell_size
  let fx := usizeOfFloor x
  let fy := usizeOfFloor y
  if x < 0 ∨ r.width ≤ fx ∨ y < 0 ∨ r.height ≤ fy then .ok none
  else
    let fx_1 := min (fx + 1) (r.width - 1)
    let fy_1 := min (fy + 1) (r.height - 1)
    let h00 := r.sample fx fy band
    let h10 := r.sample fx_1 fy band
    let h01 := r.sample fx fy_1 band
    let h11 := r.sample fx_1 fy_1 band
    let h0 := h00 + (h01 - h00) * (y - (fy : ℚ))
    let h1 := h10 + (h11 - h10) * (y - (fy : ℚ))
    .ok (some (h0 + (h1 - h0) * (x - (fx : ℚ))))

/-- Raster::nearest3 (raster.rs lines 117-132).  Note the y coordinate here
uses `self.height as f64`, not height - 1 as interpolate does. -/
def Raster.nearest3 (r : Raster) (latitude longitude : ℚ) :
    Except String (Option (ℚ × ℚ × ℚ)) :=
  if ¬ 3 ≤ r.bands then .error "assertion failed: self.bands >= 3" else
  let x := (longitude - r.longitude_llcorner) / r.cell_size
  let y := (r.height : ℚ) - (latitude - r.latitude_llcorner) / r.cell_size
  let fx := usizeOfFloor x
  let fy := usizeOfFloor y
  if x < 0 ∨ r.width ≤ fx ∨ y < 0 ∨ r.height ≤ fy then .ok none
  else
    .ok (some (r.sample fx fy 0, r.sample fx fy 1, r.sample fx fy 2))

/-- Grid x coordinate as the spec words it: x = (lon - lon0)/cell_size. -/
def specGridX (r : Raster) (longitude : ℚ) : ℚ :=
  (longitude - r.longitude_llcorner) / r.cell_size

/-- Grid y coordinate as the spec words it:
y = (height - 1) - (lat - lat0)/cell_size. -/
def specGridY (r : Raster) (latitude : ℚ) : ℚ :=
  ((r.height : ℚ) - 1) - (latitude - r.latitude_llcorner) / r.cell_size

/-- Bilinear blend with weights wx, wy, as in the spec's numeric
semantics. -/
def bilerp (v00 v10 v01 v11 wx wy : ℚ) : ℚ :=
  let h0 := v00 + (v01 - v00) * wy
  let h1 := v10 + (v11 - v10) * wy
  h0 + (h1 - h0) * wx

/-- Interpolation as claim C4 words it: map the query point to grid
coordinates by specGridX/specGridY, return an absent value when the point
leaves the raster, otherwise blend the four surrounding grid points (clamped
at the raster edge) bilinearly with the fractional parts of x and y as the
weights. -/
def specInterpolate (r : Raster) (latitude longitude : ℚ) (band : Nat) :
    Option ℚ :=
  let x := specGridX r longitude
  let y := specGridY r latitude
  if 0 ≤ x ∧ ⌊x⌋ < (r.width : Int) ∧ 0 ≤ y ∧ ⌊y⌋ < (r.height : Int) then
    let fx := (⌊x⌋).toNat
    let fy := (⌊y⌋).toNat
    let fx_1 := min (fx + 1) (r.width - 1)
    let fy_1 := min (fy + 1) (r.height - 1)
    some (bilerp (r.sample fx fy band) (r.sample fx_1 fy band)
      (r.sample fx fy_1 band) (r.sample fx_1 fy_1 band)
      (Int.fract x) (Int.fract y))
  else none

/-- Nearest-cell fetch as claim C4 words it: the same grid mapping as
interpolate (y based on height - 1), three bands fetched at the floor
cell. -/
def specNearest3 (r : Raster) (latitude longitude : ℚ) : Option (ℚ × ℚ × ℚ) :=
  let x := specGridX r longitude
  let y := specGridY r latitude
  if 0 ≤ x ∧ ⌊x⌋ < (r.width : Int) ∧ 0 ≤ y ∧ ⌊y⌋ < (r.height : Int) then
    some (r.sample (⌊x⌋).toNat (⌊y⌋).toNat 0, r.sample (⌊x⌋).toNat (⌊y⌋).toNat 1,
      r.sample (⌊x⌋).toNat (⌊y⌋).toNat 2)
  else none

/-- Nearest-cell fetch as the code actually maps it (amended claim C4):
y = height - (lat - lat0)/cell_size. -/
def specNearest3Actual (r : Raster) (latitude longitude : ℚ) :
    Option (ℚ × ℚ × ℚ) :=
  let x := specGridX r longitude
  let y := (r.height : ℚ) - (latitude - r.latitude_llcorner) / r.cell_size
  if 0 ≤ x ∧ ⌊x⌋ < (r.width : Int) ∧ 0 ≤ y ∧ ⌊y⌋ < (r.height : Int) then
    some (r.sample (⌊x⌋).toNat (⌊y⌋).toNat 0, r.sample (⌊x⌋).toNat (⌊y⌋).toNat 1,
      r.sample (⌊x⌋).toNat (⌊y⌋).toNat 2)
  else none

/-- GlobalRaster (raster.rs lines 296-301). -/
structure GlobalRaster where
  width : Nat
  height : Nat
  bands : Nat
  values : List ℚ
deriving DecidableEq, Repr

/-- GlobalRaster::get (raster.rs lines 310-314): y clamped to
[0, height - 1], x wrapped modulo width.  Rust i64 `%` is the truncated
remainder, Int.tmod; the `((x % w) + w) % w` dance yields the Euclidean
remainder for w > 0. -/
def GlobalRaster.get (g : GlobalRaster) (x y : Int) (band : Nat) : ℚ :=
  let yc := (min (max y 0) ((g.height : Int) - 1)).toNat
  let xw := ((Int.tmod x (g.width : Int) + (g.width : Int)).tmod (g.width : Int)).toNat
  g.values.getD ((xw + yc * g.width) * g.bands + band) 0

/-- GlobalRaster::interpolate (raster.rs lines 316-333).  The two asserts
are the error cases; the second assert in the source checks
`latitude <= 180.0` where the symmetric guard would check longitude. -/
def GlobalRaster.interpolate (g : GlobalRaster) (latitude longitude : ℚ)
    (band : Nat) : Except String ℚ :=
  if ¬ (-90 ≤ latitude ∧ latitude ≤ 90) then
    .error "assertion failed: latitude >= -90.0 && latitude <= 90.0"
  else if ¬ (-180 ≤ longitude ∧ latitude ≤ 180) then
    .error "assertion failed: longitude >= -180.0 && latitude <= 180.0"
  else
    let x := (longitude + 180) / 360 * (g.width : ℚ) - 1/2
    let y := (90 - latitude) / 180 * (g.height : ℚ) - 1/2
    let fx := ⌊x⌋
    let fy := ⌊y⌋
    let h00 := g.get fx fy band
    let h10 := g.get (fx + 1) fy band
    let h01 := g.get fx (fy + 1) band
    let h11 := g.get (fx + 1) (fy + 1) band
    let h0 := h00 + (h01 - h00) * (y - (fy : ℚ))
    let h1 := h10 + (h11 - h10) * (y - (fy : ℚ))
    .ok (h0 + (h1 - h0) * (x - (fx : ℚ)))

/-- DigitalElevationModel (dem.rs lines 157-166). -/
structure DigitalElevationModel where
  width : Nat
  height : Nat
  cell_size : ℚ
  xllcorner : ℚ
  yllcorner : ℚ
  elevations : List ℚ
deriving DecidableEq, Repr

/-- DigitalElevationModel::get_elevation (dem.rs lines 328-347).  Here x is
derived from the latitude and y from the longitude; `self.width - 1` and
`self.height - 1` are usize subtractions. -/
def DigitalElevationModel.get_elevation (d : DigitalElevationModel)
    (latitude longitude : ℚ) : Option ℚ :=
  let x := (latitude - d.xllcorner) / d.cell_size
  let y₀ := (longitude - d.yllcorner) / d.cell_size
  let y := ((d.height - 1 : Nat) : ℚ) - y₀
  let fx := usizeOfFloor x
  let fy := usizeOfFloor y
  if x < 0 ∨ d.width - 1 ≤ fx ∨ y < 0 ∨ d.height - 1 ≤ fy then none
  else
    let h00 := d.elevations.getD (fx + fy * d.width) 0
    let h10 := d.elevations.getD (fx + 1 + fy * d.width) 0
    let h01 := d.elevations.getD (fx + (fy + 1) * d.width) 0
    let h11 := d.elevations.getD (fx + 1 + (fy + 1) * d.width) 0
    let h0 := h00 + (h01 - h00) * (y - (fy : ℚ))
    let h1 := h10 + (h11 - h10) * (y - (fy : ℚ))
    some (h0 + (h1 - h0) * (x - (fx : ℚ)))

lemma usizeOfFloor_ge {w : Nat} {q : ℚ} (h : (w : ℚ) ≤ q) :
    w ≤ usizeOfFloor q := by
  unfold usizeOfFloor
  have h1 : (w : Int) ≤ ⌊q⌋ := Int.le_floor.mpr (by exact_mod_cast h)
  omega

/-- Concrete input exhibiting the GlobalRaster panic. -/
def gOutOfRange : GlobalRaster := ⟨1, 1, 1, [0]⟩

lemma out_of_extent_raster_parts (r : Raster) (d : DigitalElevationModel)
    (g : GlobalRaster) (lat lon : ℚ) (band : Nat) :
    (0 < r.cell_size → band < r.bands →
      (lon < r.longitude_llcorner ∨
        r.longitude_llcorner + r.cell_size * r.width ≤ lon ∨
        r.latitude_llcorner + r.cell_size * ((r.height : ℚ) - 1) < lat ∨
        lat ≤ r.latitude_llcorner - r.cell_size) →
      r.interpolate lat lon band = .ok none) ∧
    (0 < r.cell_size → 3 ≤ r.bands →
      (lon < r.longitude_llcorner ∨
        r.longitude_llcorner + r.cell_size * r.width ≤ lon ∨
        r.latitude_llcorner + r.cell_size * (r.height : ℚ) < lat ∨
        lat ≤ r.latitude_llcorner) →
      r.nearest3 lat lon = .ok none) ∧
    (0 < d.cell_size → 1 ≤ d.width → 1 ≤ d.height →
      (lat < d.xllcorner ∨
        d.xllcorner + d.cell_size * ((d.width : ℚ) - 1) ≤ lat ∨
        d.yllcorner + d.cell_size * ((d.height : ℚ) - 1) < lon ∨
        lon ≤ d.yllcorner) →
      d.get_elevation lat lon = none) ∧
    ((lat < -90 ∨ 90 < lat) →
      ∃ msg, g.interpolate lat lon band = .error msg) := by
  refine ⟨?_, ?_, ?_, ?_⟩
  · intro hc hband hout
    unfold Raster.interpolate
    dsimp only
    split
    · rename_i hcon
      exact absurd hband (by simpa using hcon)
    · split
      · rfl
      · rename_i hg
        push_neg at hg
        obtain ⟨hx0, hfx, hy0, hfy⟩ := hg
        exfalso
        by_cases hh0 : r.height = 0
        · rw [hh0] at hfy
          omega
        · have hh1 : 1 ≤ r.height := Nat.one_le_iff_ne_zero.mpr hh0
          have hcast : ((r.height - 1 : Nat) : ℚ) = (r.height : ℚ) - 1 := by
            rw [Nat.cast_sub hh1, Nat.cast_one]
          rcases hout with h1 | h1 | h1 | h1
          · have : (lon - r.longitude_llcorner) / r.cell_size < 0 :=
              div_neg_of_neg_of_pos (by linarith) hc
            linarith
          · have : r.width ≤ usizeOfFloor ((lon - r.longitude_llcorner) / r.cell_size) :=
              usizeOfFloor_ge ((le_div_iff₀ hc).mpr (by linarith))
            omega
          · have ht : ((r.height : ℚ) - 1) < (lat - r.latitude_llcorner) / r.cell_size :=
              (lt_div_iff₀ hc).mpr (by linarith)
            rw [hcast] at hy0
            linarith
          · have ht : (lat - r.latitude_llcorner) / r.cell_size ≤ -1 :=
              (div_le_iff₀ hc).mpr (by linarith)
            have : r.height ≤ usizeOfFloor (((r.height - 1 : Nat) : ℚ) -
                (lat - r.latitude_llcorner) / r.cell_size) := by
              apply usizeOfFloor_ge
              rw [hcast]
              linarith
            omega
  · intro hc hband hout
    unfold Raster.nearest3
    dsimp only
    split
    · rename_i hcon
      exact absurd hband (by simpa using hcon)
    · split
      · rfl
      · rename_i hg
        push_neg at hg
        obtain ⟨hx0, hfx, hy0, hfy⟩ := hg
        exfalso
        rcases hout with h1 | h1 | h1 | h1
        · have : (lon - r.longitude_llcorner) / r.cell_size < 0 :=
            div_neg_of_neg_of_pos (by linarith) hc
          linarith
        · have : r.width ≤ usizeOfFloor ((lon - r.longitude_llcorner) / r.cell_size) :=
            usizeOfFloor_ge ((le_div_iff₀ hc).mpr (by linarith))
          omega
        · have ht : (r.height : ℚ) < (lat - r.latitude_llcorner) / r.cell_size :=
            (lt_div_iff₀ hc).mpr (by linarith)
          linarith
        · have ht : (lat - r.latitude_llcorner) / r.cell_size ≤ 0 :=
            div_nonpos_of_nonpos_of_nonneg (by linarith) (le_of_lt hc)
          have : r.height ≤ usizeOfFloor ((r.height : ℚ) -
              (lat - r.latitude_llcorner) / r.cell_size) := by
            apply usizeOfFloor_ge
            linarith
          omega
  · intro hc hw hh hout
    unfold DigitalElevationModel.get_elevation
    dsimp only
    split
    · rfl
    · rename_i hg
      push_neg at hg
      obtain ⟨hx0, hfx, hy0, hfy⟩ := hg
      exfalso
      have hwcast : ((d.width - 1 : Nat) : ℚ) = (d.width : ℚ) - 1 := by
        rw [Nat.cast_sub hw, Nat.cast_one]
      have hhcast : ((d.height - 1 : Nat) : ℚ) = (d.height : ℚ) - 1 := by
        rw [Nat.cast_sub hh, Nat.cast_one]
      rcases hout with h1 | h1 | h1 | h1
      · have : (lat - d.xllcorner) / d.cell_size < 0 :=
          div_neg_of_neg_of_pos (by linarith) hc
        linarith
      · have : d.width - 1 ≤ usizeOfFloor ((lat - d.xllcorner) / d.cell_size) := by
          apply usizeOfFloor_ge
          rw [hwcast]
          exact (le_div_iff₀ hc).mpr (by linarith)
        omega
      · have ht : ((d.height : ℚ) - 1) < (lon - d.yllcorner) / d.cell_size :=
          (lt_div_iff₀ hc).mpr (by linarith)
        rw [hhcast] at hy0
        linarith
      · have ht : (lon - d.yllcorner) / d.cell_size ≤ 0 :=
          div_nonpos_of_nonpos_of_nonneg (by linarith) (le_of_lt hc)
        have : d.height - 1 ≤ usizeOfFloor (((d.height - 1 : Nat) : ℚ) -
            (lon - d.yllcorner) / d.cell_size) := by
          apply usizeOfFloor_ge
          rw [hhcast]
          linarith
        omega
  · intro hout
    unfold GlobalRaster.interpolate
    have hcond : ¬ (-90 ≤ lat ∧ lat ≤ 90) := by
      intro hcc
      rcases hout with h | h
      · linarith [hcc.1]
      · linarith [hcc.2]
    rw [if_pos hcond]
    exact ⟨_, rfl⟩

/-- Concrete raster for the closed witness of the out-of-extent theorem. -/
def rOutOfRange : Raster := ⟨1, 1, 1, 1, 0, 0, [0]⟩

/-- Concrete three-band raster for the nearest3 part of the witness. -/
def rOutOfRange3 : Raster := ⟨1, 1, 3, 1, 0, 0, [0, 0, 0]⟩

/-- Concrete elevation model for the closed witness of the out-of-extent
theorem. -/
def dOutOfRange : DigitalElevationModel := ⟨2, 2, 1, 0, 0, [0, 0, 0, 0]⟩

lemma raster_guard_iff (w h : Nat) (x y : ℚ) :
    (x < 0 ∨ w ≤ usizeOfFloor x ∨ y < 0 ∨ h ≤ usizeOfFloor y) ↔
      ¬ (0 ≤ x ∧ ⌊x⌋ < (w : Int) ∧ 0 ≤ y ∧ ⌊y⌋ < (h : Int)) := by
  unfold usizeOfFloor
  have hx1 : 0 ≤ ⌊x⌋ ↔ 0 ≤ x := Int.floor_nonneg
  have hy1 : 0 ≤ ⌊y⌋ ↔ 0 ≤ y := Int.floor_nonneg
  have hx2 : x < 0 ↔ ¬ (0 ≤ x) := not_le.symm
  have hy2 : y < 0 ↔ ¬ (0 ≤ y) := not_le.symm
  rw [hx2, hy2, ← hx1, ← hy1]
  omega

/-- Concrete raster for the C4 counterexample: width 1, height 2, 3 bands,
cell size 1, lower-left corner (0, 0). -/
def rGridMap : Raster := ⟨1, 2, 3, 1, 0, 0, [1, 2, 3, 4, 5, 6]⟩

/-- C4 counterexample: at the llcorner latitude itself Raster::nearest3
returns an absent value, although the claimed grid mapping
y = (height-1) - (lat-lat0)/cell_size selects the valid row 1 and yields the
bands (4, 5, 6); nearest3 actually computes y = height - (lat-lat0)/cell_size. -/
theorem nearest3_grid_mapping_counterexample :
    rGridMap.nearest3 0 0 = .ok none ∧
      specNearest3 rGridMap 0 0 = some (4, 5, 6) ∧
      rGridMap.nearest3 0 0 ≠ .ok (specNearest3 rGridMap 0 0) := by
  have h1 : rGridMap.nearest3 0 0 = .ok none := by
    norm_num [Raster.nearest3, rGridMap, usizeOfFloor]
  have h2 : specNearest3 rGridMap 0 0 = some (4, 5, 6) := by
    norm_num [specNearest3, specGridX, specGridY, rGridMap, Raster.sample]
  refine ⟨h1, h2, ?_⟩
  intro hcon
  rw [h1, h2] at hcon
  simp at hcon

/-- C4 amended: Raster::interpolate follows the claimed grid mapping
(x = (lon - lon0)/cell_size, y = (height - 1) - (lat - lat0)/cell_size) and
uses the fractional parts of x and y as bilinear weights, while
Raster::nearest3 uses y = height - (lat - lat0)/cell_size, one row below the
claimed mapping. -/
theorem raster_grid_mapping_and_weights (r : Raster) (lat lon : ℚ) (band : Nat)
    (hh : 1 ≤ r.height) :
    (band < r.bands →
      r.interpolate lat lon band = .ok (specInterpolate r lat lon band)) ∧
    (3 ≤ r.bands → r.nearest3 lat lon = .ok (specNearest3Actual r lat lon)) := by
  constructor
  · intro hband
    unfold Raster.interpolate specInterpolate specGridX specGridY
    dsimp only
    rw [if_neg (not_not_intro hband)]
    have hcast : ((r.height - 1 : Nat) : ℚ) = (r.height : ℚ) - 1 := by
      rw [Nat.cast_sub hh, Nat.cast_one]
    rw [hcast]
    split
    · rename_i hGc
      rw [if_neg ((raster_guard_iff _ _ _ _).mp hGc)]
    · rename_i hGc
      have hGs := not_not.mp (fun hcon =>
        hGc ((raster_guard_iff _ _ _ _).mpr hcon))
      rw [if_pos hGs]
      unfold bilerp usizeOfFloor
      dsimp only
      have hfx : ((⌊(lon - r.longitude_llcorner) / r.cell_size⌋.toNat : Nat) : ℚ)
          = (⌊(lon - r.longitude_llcorner) / r.cell_size⌋ : ℚ) := by
        exact_mod_cast Int.toNat_of_nonneg (Int.floor_nonneg.mpr hGs.1)
      have hfy : ((⌊(r.height : ℚ) - 1 - (lat - r.latitude_llcorner) / r.cell_size⌋.toNat : Nat) : ℚ)
          = (⌊(r.height : ℚ) - 1 - (lat - r.latitude_llcorner) / r.cell_size⌋ : ℚ) := by
        exact_mod_cast Int.toNat_of_nonneg (Int.floor_nonneg.mpr hGs.2.2.1)
      rw [hfx, hfy]
      simp only [Int.self_sub_floor]
  · intro hband
    unfold Raster.nearest3 specNearest3Actual specGridX
    dsimp only
    rw [if_neg (not_not_intro hband)]
    split
    · rename_i hGc
      rw [if_neg ((raster_guard_iff _ _ _ _).mp hGc)]
    · rename_i hGc
      have hGs := not_not.mp (fun hcon =>
        hGc ((raster_guard_iff _ _ _ _).mpr hcon))
      rw [if_pos hGs]
      unfold usizeOfFloor
      rfl

/-- Closed witness for raster_grid_mapping_and_weights at an interior
point. -/
theorem raster_grid_mapping_and_weights_witness :
    (rGridMap.interpolate (1/2) (1/2) 0
        = .ok (specInterpolate rGridMap (1/2) (1/2) 0)) ∧
      (rGridMap.nearest3 (1/2) (1/2)
        = .ok (specNearest3Actual rGridMap (1/2) (1/2))) := by
  obtain ⟨p1, p2⟩ := raster_grid_mapping_and_weights rGridMap (1/2) (1/2) 0
    (by norm_num [rGridMap])
  exact ⟨p1 (by norm_num [rGridMap]), p2 (by norm_num [rGridMap])⟩

/-! ### RasterCache and DigitalElevationModelCache
(raster.rs lines 233-293, dem.rs lines 350-393)

The lru_cache crate's LruCache is modelled by a capacity plus an association
list whose head is the most recently used entry: get_mut moves the found
entry to the head, insert attaches at the head and drops the tail entry when
over capacity, contains_key leaves the order unchanged.  The HashSet of
holes is a list queried by membership.  The raster/DEM source (the boxed
RasterSource, resp. the WebAsset fetch-and-parse of
DigitalElevationModelParams::load) is an external collaborator and is passed
in as a function from cell key to an optional result. -/

/-- Model of lru_cache::LruCache. -/
structure LruCacheM (K V : Type) where
  capacity : Nat
  entries : List (K × V)
deriving Repr

/-- LruCache::contains_key (no reordering). -/
def lruContains {K V : Type} [DecidableEq K] (c : LruCacheM K V) (k : K) : Bool :=
  (c.entries.find? (fun p => decide (p.1 = k))).isSome

/-- LruCache::get_mut: returns the value and moves the entry to the most
recently used position. -/
def lruGetRefresh {K V : Type} [DecidableEq K] (c : LruCacheM K V) (k : K) :
    Option (V × LruCacheM K V) :=
  match c.entries.find? (fun p => decide (p.1 = k)) with
  | none => none
  | some p =>
    some (p.2, ⟨c.capacity, (k, p.2) :: c.entries.filter (fun q => decide (q.1 ≠ k))⟩)

/-- LruCache::insert: attach at the most recently used position, dropping
the least recently used entry when over capacity. -/
def lruInsert {K V : Type} [DecidableEq K] (c : LruCacheM K V) (k : K) (v : V) :
    LruCacheM K V :=
  let entries := (k, v) :: c.entries.filter (fun q => decide (q.1 ≠ k))
  ⟨c.capacity, if c.capacity < entries.length then entries.dropLast else entries⟩

/-- RasterCache state (raster.rs lines 233-237); raster_size is the fixed
RasterSource::raster_size of the boxed source. -/
structure RasterCacheM where
  raster_size : Int
  holes : List (Int × Int)
  rasters : LruCacheM (Int × Int) Raster
deriving Repr

/-- Cell key rounding of RasterCache::get:
`latitude - (latitude % rs + rs) % rs` where Rust's `%` is the truncated
remainder Int.tmod. -/
def rcKey (rs : Int) (latitude longitude : Int) : Int × Int :=
  (latitude - Int.tmod (Int.tmod latitude rs + rs) rs,
   longitude - Int.tmod (Int.tmod longitude rs + rs) rs)

/-- RasterCache::get (raster.rs lines 242-266).  Returns the result, the
updated cache, and whether the source was invoked.  The two none fallbacks
mirror `get_mut` returning nothing right after a presence check or an
insert; they are unreachable except through an lru capacity of 0. -/
def RasterCacheM.get (c : RasterCacheM) (load : Int × Int → Option Raster)
    (latitude longitude : Int) : Option Raster × RasterCacheM × Bool :=
  let key := rcKey c.raster_size latitude longitude
  if key ∈ c.holes then (none, c, false)
  else if lruContains c.rasters key then
    match lruGetRefresh c.rasters key with
    | some (r, rasters) => (some r, { c with rasters := rasters }, false)
    | none => (none, c, false)
  else
    match load key with
    | some raster =>
      let inserted := lruInsert c.rasters key raster
      match lruGetRefresh inserted key with
      | some (r, rasters) => (some r, { c with rasters := rasters }, true)
      | none => (none, { c with rasters := inserted }, true)
    | none => (none, { c with holes := key :: c.holes }, true)

/-- Fold of RasterCache::get over a list of query cells (results
discarded). -/
def RasterCacheM.runGets (c : RasterCacheM) (load : Int × Int → Option Raster) :
    List (Int × Int) → RasterCacheM
  | [] => c
  | q :: qs => ((c.get load q.1 q.2).2.1).runGets load qs

/-- DigitalElevationModelCache (dem.rs lines 350-354). -/
structure DEMCacheM where
  holes : List (Int × Int)
  dems : LruCacheM (Int × Int) DigitalElevationModel
deriving Repr

/-- DigitalElevationModelCache::get_elevation (dem.rs lines 364-392).  The
error case is the `assert!(elevation.is_some())` after a successful load
(the second assert, `insert(..).is_none()`, cannot fire because the key was
just found absent).  Returns the elevation, the updated cache, and whether
the source was invoked. -/
def DEMCacheM.get_elevation (c : DEMCacheM)
    (load : Int × Int → Option DigitalElevationModel) (latitude longitude : ℚ) :
    Except String (Option ℚ × DEMCacheM × Bool) :=
  let key := (⌊latitude⌋, ⌊longitude⌋)
  if key ∈ c.holes then .ok (none, c, false)
  else match lruGetRefresh c.dems key with
  | some (dem, dems) =>
    .ok (dem.get_elevation latitude longitude, { c with dems := dems }, false)
  | none =>
    match load key with
    | some dem =>
      let elevation := dem.get_elevation latitude longitude
      if elevation.isNone then .error "assertion failed: elevation.is_some()"
      else .ok (elevation, { c with dems := lruInsert c.dems key dem }, true)
    | none => .ok (none, { c with holes := key :: c.holes }, true)

/-- Fold of get_elevation over a list of query points, stopping at a
panic. -/
def DEMCacheM.runGets (c : DEMCacheM)
    (load : Int × Int → Option DigitalElevationModel) :
    List (ℚ × ℚ) → Option DEMCacheM
  | [] => some c
  | q :: qs =>
    match c.get_elevation load q.1 q.2 with
    | .error _ => none
    | .ok (_, c2, _) => c2.runGets load qs

lemma RasterCacheM.get_raster_size (c : RasterCacheM)
    (load : Int × Int → Option Raster) (a b : Int) :
    ((c.get load a b).2.1).raster_size = c.raster_size := by
  unfold RasterCacheM.get
  dsimp only
  repeat' split
  all_goals rfl

lemma RasterCacheM.runGets_raster_size (load : Int × Int → Option Raster)
    (qs : List (Int × Int)) :
    ∀ c : RasterCacheM, (c.runGets load qs).raster_size = c.raster_size := by
  induction qs with
  | nil => intro c; rfl
  | cons q qs ih =>
    intro c
    unfold RasterCacheM.runGets
    rw [ih]
    exact RasterCacheM.get_raster_size c load q.1 q.2

lemma RasterCacheM.get_holes_mono (c : RasterCacheM)
    (load : Int × Int → Option Raster) (a b : Int) {k : Int × Int}
    (h : k ∈ c.holes) : k ∈ ((c.get load a b).2.1).holes := by
  unfold RasterCacheM.get
  dsimp only
  repeat' split
  all_goals first
    | exact h
    | exact List.mem_cons_of_mem _ h

lemma RasterCacheM.runGets_holes_mono (load : Int × Int → Option Raster)
    (qs : List (Int × Int)) :
    ∀ (c : RasterCacheM) {k : Int × Int}, k ∈ c.holes →
      k ∈ (c.runGets load qs).holes := by
  induction qs with
  | nil => intro c k h; exact h
  | cons q qs ih =>
    intro c k h
    unfold RasterCacheM.runGets
    exact ih _ (RasterCacheM.get_holes_mono c load q.1 q.2 h)

lemma RasterCacheM.get_hole (c : RasterCacheM)
    (load : Int × Int → Option Raster) (a b : Int)
    (h : rcKey c.raster_size a b ∈ c.holes) :
    c.get load a b = (none, c, false) := by
  unfold RasterCacheM.get
  dsimp only
  rw [if_pos h]

lemma RasterCacheM.get_invoked_fail {c : RasterCacheM}
    {load : Int × Int → Option Raster} {a b : Int}
    (hinv : (c.get load a b).2.2 = true)
    (hfail : load (rcKey c.raster_size a b) = none) :
    c.get load a b =
      (none, { c with holes := rcKey c.raster_size a b :: c.holes }, true) := by
  unfold RasterCacheM.get at hinv ⊢
  dsimp only at hinv ⊢
  split at hinv
  · simp at hinv
  · rename_i hhole
    rw [if_neg hhole]
    split at hinv
    · rename_i hcont
      rw [if_pos hcont]
      split at hinv <;> simp_all
    · rename_i hcont
      rw [if_neg hcont, hfail]

lemma DEMCacheM.get_elevation_hole {c : DEMCacheM}
    {load : Int × Int → Option DigitalElevationModel} {a b : ℚ}
    (h : (⌊a⌋, ⌊b⌋) ∈ c.holes) :
    c.get_elevation load a b = .ok (none, c, false) := by
  unfold DEMCacheM.get_elevation
  dsimp only
  rw [if_pos h]

lemma DEMCacheM.get_elevation_holes_mono {c c₂ : DEMCacheM}
    {load : Int × Int → Option DigitalElevationModel} {a b : ℚ}
    {e : Option ℚ} {inv : Bool} {k : Int × Int} (hk : k ∈ c.holes)
    (h : c.get_elevation load a b = .ok (e, c₂, inv)) : k ∈ c₂.holes := by
  unfold DEMCacheM.get_elevation at h
  dsimp only at h
  split at h
  · simp only [Except.ok.injEq, Prod.mk.injEq] at h
    rw [← h.2.1]
    exact hk
  · split at h
    · simp only [Except.ok.injEq, Prod.mk.injEq] at h
      rw [← h.2.1]
      exact hk
    · split at h
      · split at h
        · exact absurd h (by simp)
        · simp only [Except.ok.injEq, Prod.mk.injEq] at h
          rw [← h.2.1]
          exact hk
      · simp only [Except.ok.injEq, Prod.mk.injEq] at h
        rw [← h.2.1]
        exact List.mem_cons_of_mem _ hk

lemma DEMCacheM.runGets_holes_monotone
    (load : Int × Int → Option DigitalElevationModel) (qs : List (ℚ × ℚ)) :
    ∀ (c c₂ : DEMCacheM) {k : Int × Int}, k ∈ c.holes →
      c.runGets load qs = some c₂ → k ∈ c₂.holes := by
  induction qs with
  | nil =>
    intro c c₂ k hk h
    simp only [DEMCacheM.runGets, Option.some.injEq] at h
    rw [← h]
    exact hk
  | cons q qs ih =>
    intro c c₂ k hk h
    unfold DEMCacheM.runGets at h
    split at h
    · exact absurd h (by simp)
    · rename_i e c1 inv heq
      exact ih _ _ (DEMCacheM.get_elevation_holes_mono hk heq) h

lemma DEMCacheM.get_elevation_invoked_fail {c c₁ : DEMCacheM}
    {load : Int × Int → Option DigitalElevationModel} {a b : ℚ} {e : Option ℚ}
    (h : c.get_elevation load a b = .ok (e, c₁, true))
    (hfail : load (⌊a⌋, ⌊b⌋) = none) :
    e = none ∧ c₁ = { c with holes := (⌊a⌋, ⌊b⌋) :: c.holes } := by
  unfold DEMCacheM.get_elevation at h
  dsimp only at h
  split at h
  · simp at h
  · split at h
    · simp at h
    · rw [hfail] at h
      dsimp only at h
      simp only [Except.ok.injEq, Prod.mk.injEq] at h
      exact ⟨h.1.symm, h.2.1.symm⟩

/-- Elevation cache that negatively caches cell (200, 0). -/
def dcHoleW : DEMCacheM := ⟨[(200, 0)], ⟨4, []⟩⟩

/-- Empty elevation cache for the out-of-extent theorem witness. -/
def dcEmptyW : DEMCacheM := ⟨[], ⟨4, []⟩⟩

/-- Source whose loads always fail. -/
def dLoadNone : Int × Int → Option DigitalElevationModel := fun _ => none

/-- Source that always yields dOutOfRange, a model not covering latitude
200. -/
def dLoadSome : Int × Int → Option DigitalElevationModel :=
  fun _ => some dOutOfRange

/-- C3 counterexample: two of the cited geographic query operations panic
instead of returning an absent value.  GlobalRaster::interpolate at
latitude 91 hits `assert!(latitude >= -90.0 && latitude <= 90.0)`
(raster.rs line 317); and DigitalElevationModelCache::get_elevation on an
empty cache, queried at latitude 200 when the source load succeeds but
yields a model that does not cover that latitude, hits
`assert!(elevation.is_some())` (dem.rs line 383) right after the load. -/
theorem geographic_query_panics :
    gOutOfRange.interpolate 91 0 0 =
      .error "assertion failed: latitude >= -90.0 && latitude <= 90.0" ∧
    dcEmptyW.get_elevation dLoadSome 200 0 =
      .error "assertion failed: elevation.is_some()" := by
  constructor
  · rfl
  · norm_num [DEMCacheM.get_elevation, dcEmptyW, dLoadSome, lruGetRefresh,
      dOutOfRange, DigitalElevationModel.get_elevation, usizeOfFloor]

/-- C3 amended: Raster::interpolate, Raster::nearest3 and
DigitalElevationModel::get_elevation return an absent value on queries
outside the covered extent (for valid band arguments and well-formed
headers) without panicking, and DigitalElevationModelCache::get_elevation
returns an absent value without invoking the source when the queried cell
is negatively cached, and records the hole and returns an absent value when
the load fails; but GlobalRaster::interpolate asserts the latitude range
and panics outside it, and DigitalElevationModelCache::get_elevation
panics through assert!(elevation.is_some()) whenever a load succeeds but
the loaded model does not cover the queried point. -/
theorem out_of_extent_queries_absent (r : Raster) (d : DigitalElevationModel)
    (g : GlobalRaster) (dc : DEMCacheM)
    (dload : Int × Int → Option DigitalElevationModel)
    (lat lon : ℚ) (band : Nat) :
    (0 < r.cell_size → band < r.bands →
      (lon < r.longitude_llcorner ∨
        r.longitude_llcorner + r.cell_size * r.width ≤ lon ∨
        r.latitude_llcorner + r.cell_size * ((r.height : ℚ) - 1) < lat ∨
        lat ≤ r.latitude_llcorner - r.cell_size) →
      r.interpolate lat lon band = .ok none) ∧
    (0 < r.cell_size → 3 ≤ r.bands →
      (lon < r.longitude_llcorner ∨
        r.longitude_llcorner + r.cell_size * r.width ≤ lon ∨
        r.latitude_llcorner + r.cell_size * (r.height : ℚ) < lat ∨
        lat ≤ r.latitude_llcorner) →
      r.nearest3 lat lon = .ok none) ∧
    (0 < d.cell_size → 1 ≤ d.width → 1 ≤ d.height →
      (lat < d.xllcorner ∨
        d.xllcorner + d.cell_size * ((d.width : ℚ) - 1) ≤ lat ∨
        d.yllcorner + d.cell_size * ((d.height : ℚ) - 1) < lon ∨
        lon ≤ d.yllcorner) →
      d.get_elevation lat lon = none) ∧
    ((lat < -90 ∨ 90 < lat) →
      ∃ msg, g.interpolate lat lon band = .error msg) ∧
    ((⌊lat⌋, ⌊lon⌋) ∈ dc.holes →
      dc.get_elevation dload lat lon = .ok (none, dc, false)) ∧
    ((⌊lat⌋, ⌊lon⌋) ∉ dc.holes →
      lruGetRefresh dc.dems (⌊lat⌋, ⌊lon⌋) = none →
      dload (⌊lat⌋, ⌊lon⌋) = none →
      dc.get_elevation dload lat lon =
        .ok (none, { dc with holes := (⌊lat⌋, ⌊lon⌋) :: dc.holes }, true)) ∧
    ((⌊lat⌋, ⌊lon⌋) ∉ dc.holes →
      lruGetRefresh dc.dems (⌊lat⌋, ⌊lon⌋) = none →
      dload (⌊lat⌋, ⌊lon⌋) = some d → d.get_elevation lat lon = none →
      dc.get_elevation dload lat lon =
        .error "assertion failed: elevation.is_some()") := by
  obtain ⟨p1, p2, p3, p4⟩ := out_of_extent_raster_parts r d g lat lon band
  refine ⟨p1, p2, p3, p4, ?_, ?_, ?_⟩
  · intro hhole
    exact DEMCacheM.get_elevation_hole hhole
  · intro hhole hres hfail
    unfold DEMCacheM.get_elevation
    dsimp only
    rw [if_neg hhole, hres]
    dsimp only
    rw [hfail]
  · intro hhole hres hload hnone
    unfold DEMCacheM.get_elevation
    dsimp only
    rw [if_neg hhole, hres]
    dsimp only
    rw [hload]
    dsimp only
    rw [hnone]
    rfl

/-- Closed witness for out_of_extent_queries_absent at latitude 200:
the three in-core lookups return absent values, GlobalRaster panics,
the negatively cached cell short-circuits to an absent value, a failed
load records the hole and returns an absent value, and a successful load
of a non-covering model panics. -/
theorem out_of_extent_queries_absent_witness :
    rOutOfRange.interpolate 200 0 0 = .ok none ∧
      rOutOfRange3.nearest3 200 0 = .ok none ∧
      dOutOfRange.get_elevation 200 0 = none ∧
      (∃ msg, gOutOfRange.interpolate 200 0 0 = .error msg) ∧
      dcHoleW.get_elevation dLoadNone 200 0 = .ok (none, dcHoleW, false) ∧
      dcEmptyW.get_elevation dLoadNone 200 0 = .ok (none, dcHoleW, true) ∧
      dcEmptyW.get_elevation dLoadSome 200 0 =
        .error "assertion failed: elevation.is_some()" := by
  have hfl : ((⌊(200 : ℚ)⌋ : Int), (⌊(0 : ℚ)⌋ : Int)) = (200, 0) := by
    norm_num
  obtain ⟨p1, -, p3, p4, p5, -, -⟩ :=
    out_of_extent_queries_absent rOutOfRange dOutOfRange gOutOfRange dcHoleW
      dLoadNone 200 0 0
  obtain ⟨-, p2, -, -, -, p6, -⟩ :=
    out_of_extent_queries_absent rOutOfRange3 dOutOfRange gOutOfRange dcEmptyW
      dLoadNone 200 0 0
  obtain ⟨-, -, -, -, -, -, p7⟩ :=
    out_of_extent_queries_absent rOutOfRange dOutOfRange gOutOfRange dcEmptyW
      dLoadSome 200 0 0
  have h3 : dOutOfRange.get_elevation 200 0 = none := by
    refine p3 (by norm_num [dOutOfRange]) (by norm_num [dOutOfRange])
      (by norm_num [dOutOfRange]) ?_
    right; left
    norm_num [dOutOfRange]
  have hnot : ((⌊(200 : ℚ)⌋ : Int), (⌊(0 : ℚ)⌋ : Int)) ∉ dcEmptyW.holes := by
    simp [dcEmptyW]
  have h6 := p6 hnot rfl rfl
  rw [hfl] at h6
  refine ⟨?_, ?_, h3, p4 (Or.inr (by norm_num)), ?_, h6, p7 hnot rfl rfl h3⟩
  · refine p1 (by norm_num [rOutOfRange]) (by norm_num [rOutOfRange]) ?_
    right; right; left
    norm_num [rOutOfRange]
  · refine p2 (by norm_num [rOutOfRange3]) (by norm_num [rOutOfRange3]) ?_
    right; right; left
    norm_num [rOutOfRange3]
  · refine p5 ?_
    rw [hfl]
    simp [dcHoleW]

/-- C7: once a get observes a failed load for a cell, the cell is in the
hole set; after any sequence of further gets (none of which can remove
holes), a get for coordinates rounding to the same cell returns an absent
value immediately, without invoking the source.  First conjunct:
RasterCache::get; second conjunct: DigitalElevationModelCache::get_elevation
(whose per-process run is threaded through Except because of its internal
asserts). -/
theorem negative_cache_never_retries
    (c₀ : RasterCacheM) (load : Int × Int → Option Raster) (lat lon : Int)
    (qs : List (Int × Int)) (lat2 lon2 : Int)
    (d₀ d₁ : DEMCacheM) (dload : Int × Int → Option DigitalElevationModel)
    (qlat qlon : ℚ) (dqs : List (ℚ × ℚ)) (qlat2 qlon2 : ℚ) (e : Option ℚ) :
    ((c₀.get load lat lon).2.2 = true →
      load (rcKey c₀.raster_size lat lon) = none →
      (c₀.get load lat lon).1 = none ∧
      rcKey c₀.raster_size lat lon ∈ ((c₀.get load lat lon).2.1).holes ∧
      (rcKey c₀.raster_size lat2 lon2 = rcKey c₀.raster_size lat lon →
        (((c₀.get load lat lon).2.1).runGets load qs).get load lat2 lon2 =
          (none, ((c₀.get load lat lon).2.1).runGets load qs, false))) ∧
    (d₀.get_elevation dload qlat qlon = .ok (e, d₁, true) →
      dload (⌊qlat⌋, ⌊qlon⌋) = none →
      e = none ∧ (⌊qlat⌋, ⌊qlon⌋) ∈ d₁.holes ∧
      (⌊qlat2⌋ = ⌊qlat⌋ → ⌊qlon2⌋ = ⌊qlon⌋ →
        ∀ d₂ : DEMCacheM, d₁.runGets dload dqs = some d₂ →
          d₂.get_elevation dload qlat2 qlon2 = .ok (none, d₂, false))) := by
  constructor
  · intro hinv hfail
    have hget := RasterCacheM.get_invoked_fail hinv hfail
    rw [hget]
    refine ⟨rfl, List.mem_cons_self _ _, ?_⟩
    intro hsame
    set c₁ : RasterCacheM :=
      { c₀ with holes := rcKey c₀.raster_size lat lon :: c₀.holes } with hc₁
    have hk1 : rcKey c₀.raster_size lat lon ∈ c₁.holes := List.mem_cons_self _ _
    have hk2 : rcKey c₀.raster_size lat lon ∈ (c₁.runGets load qs).holes :=
      RasterCacheM.runGets_holes_mono load qs c₁ hk1
    have hrs : (c₁.runGets load qs).raster_size = c₀.raster_size := by
      rw [RasterCacheM.runGets_raster_size]
    apply RasterCacheM.get_hole
    rw [hrs, hsame]
    exact hk2
  · intro hok hfail
    obtain ⟨he, hd₁⟩ := DEMCacheM.get_elevation_invoked_fail hok hfail
    subst hd₁
    refine ⟨he, List.mem_cons_self _ _, ?_⟩
    intro hla hlo d₂ hrun
    have hk2 : (⌊qlat⌋, ⌊qlon⌋) ∈ d₂.holes :=
      DEMCacheM.runGets_holes_monotone dload dqs _ d₂ (List.mem_cons_self _ _) hrun
    have : (⌊qlat2⌋, ⌊qlon2⌋) ∈ d₂.holes := by
      rw [hla, hlo]
      exact hk2
    exact DEMCacheM.get_elevation_hole this

/-- Always-failing raster source for the C7 witness. -/
def c7NoLoad : Int × Int → Option Raster := fun _ => none

/-- Always-failing DEM source for the C7 witness. -/
def c7DEMNoLoad : Int × Int → Option DigitalElevationModel := fun _ => none

/-- Fresh RasterCache for the C7 witness. -/
def c7RC : RasterCacheM := ⟨1, [], ⟨4, []⟩⟩

/-- Fresh DEM cache for the C7 witness. -/
def c7DEM : DEMCacheM := ⟨[], ⟨4, []⟩⟩

/-- DEM cache after the failed load of cell (0, 1). -/
def c7DEMAfter : DEMCacheM := ⟨[(0, 1)], ⟨4, []⟩⟩

/-- Closed witness for negative_cache_never_retries: a failing load at cell
(3, 5) (resp. (0, 1)) is not retried by a later get on the same cell. -/
theorem negative_cache_never_retries_witness :
    (c7RC.get c7NoLoad 3 5).1 = none ∧
    ((((c7RC.get c7NoLoad 3 5).2.1).runGets c7NoLoad [(0, 0)]).get c7NoLoad 3 5 =
      (none, ((c7RC.get c7NoLoad 3 5).2.1).runGets c7NoLoad [(0, 0)], false)) ∧
    c7DEMAfter.get_elevation c7DEMNoLoad ((1 : ℚ)/2) ((3 : ℚ)/2) =
      .ok (none, c7DEMAfter, false) := by
  obtain ⟨p1, p2⟩ := negative_cache_never_retries c7RC c7NoLoad 3 5 [(0, 0)] 3 5
    c7DEM c7DEMAfter c7DEMNoLoad ((1 : ℚ)/2) ((3 : ℚ)/2) [] ((1 : ℚ)/2)
    ((3 : ℚ)/2) none
  have hinv : (c7RC.get c7NoLoad 3 5).2.2 = true := by decide
  obtain ⟨q1, q2, q3⟩ := p1 hinv rfl
  have hok : c7DEM.get_elevation c7DEMNoLoad ((1 : ℚ)/2) ((3 : ℚ)/2) =
      .ok (none, c7DEMAfter, true) := by
    norm_num [DEMCacheM.get_elevation, c7DEM, c7DEMAfter, c7DEMNoLoad,
      lruGetRefresh]
  obtain ⟨r1, r2, r3⟩ := p2 hok rfl
  exact ⟨q1, q3 rfl, r3 rfl rfl c7DEMAfter rfl⟩

/-! ### LayerDesc and LayerId (graph/mod.rs lines 84-133, 295-327) -/

/-- TextureFormat (from the description module, which is not part of the
observed source; the two variants R32F and Rgba8 appear in graph/mod.rs
lines 409-411).  The exact bytes_per_pixel values are immaterial to the
claims settled here. -/
inductive TextureFormat where
  | R32F
  | Rgba8
deriving DecidableEq, Repr

/-- Bytes per pixel of a texture format (both formats are 4 bytes wide). -/
def TextureFormat.bytes_per_pixel : TextureFormat → Nat
  | .R32F => 4
  | .Rgba8 => 4

/-- LayerId (graph/mod.rs line 89): the Sha256 digest of the serialized
LayerDesc.  The digest is modelled by the serialized bytes themselves:
SHA-256 is a deterministic function of its input, and distinct inputs give
distinct digests up to collisions, which this model neglects. -/
structure LayerId where
  bytes : List Nat
deriving DecidableEq, Repr

/-- Byte-level encoding of a string (length-prefixed code points), standing
for its bincode serialization. -/
def encodeString (s : String) : List Nat :=
  s.length :: s.data.map Char.toNat

/-- LayerDesc (graph/mod.rs lines 124-133).  The BTreeMap of parents is a
name-sorted association list; note its keys are the parent NAMES. -/
structure LayerDesc where
  parents : List (String × LayerId)
  resolution : Nat
  corner_registration : Bool
  format : TextureFormat
  sector_bytes : Nat
  shader : String
  center : String
deriving DecidableEq, Repr

/-- bincode-style serialization of a LayerDesc: the fields in declaration
order, the parents map length-prefixed in key order. -/
def serializeLayerDesc (d : LayerDesc) : List Nat :=
  [d.parents.length]
    ++ d.parents.foldr (fun p acc => encodeString p.1 ++ p.2.bytes ++ acc) []
    ++ [d.resolution, if d.corner_registration then 1 else 0,
        match d.format with | .R32F => 0 | .Rgba8 => 1, d.sector_bytes]
    ++ encodeString d.shader ++ encodeString d.center

/-- Sorted insertion into the name-keyed association list (BTreeMap::insert
keeps keys sorted, overwriting a duplicate key). -/
def btreeInsert (l : List (String × LayerId)) (k : String) (v : LayerId) :
    List (String × LayerId) :=
  match l with
  | [] => [(k, v)]
  | p :: ps =>
    if k < p.1 then (k, v) :: p :: ps
    else if k = p.1 then (k, v) :: ps
    else p :: btreeInsert ps k v

/-- Construction of a Generated node's LayerDesc (graph/mod.rs lines
303-322): the parents map binds each input parent's NAME to that parent's
LayerId; the sector byte count is computed in u32; the shader field holds
the shader source resolved from config.shaders. -/
def mkGeneratedDesc (inputs : List String) (layer_ids : String → LayerId)
    (resolution : Nat) (corner_registration : Bool) (format : TextureFormat)
    (shader center : String) : LayerDesc :=
  { parents := inputs.foldl
      (fun acc input => btreeInsert acc input (layer_ids input)) []
    resolution := resolution
    corner_registration := corner_registration
    format := format
    sector_bytes := resolution * resolution * format.bytes_per_pixel % 2 ^ 32
    shader := shader
    center := center }

/-- Processing of one Generated node (graph/mod.rs lines 323-325):
serialize the descriptor, hash it, and register the hash under the node's
name.  The LayerId is a function of the descriptor alone. -/
def processGenerated (name : String) (inputs : List String)
    (layer_ids : String → LayerId) (resolution : Nat)
    (corner_registration : Bool) (format : TextureFormat)
    (shader center : String) : String × LayerId :=
  (name, LayerId.mk (serializeLayerDesc
    (mkGeneratedDesc inputs layer_ids resolution corner_registration format
      shader center)))

/-- Parent LayerId used by the C2 counterexample. -/
def parentIdX : LayerId := ⟨[7]⟩

/-- C2 counterexample: renaming the parent node from "parentA" to "parentB"
while keeping the parent's LayerId and every other parameter identical
changes the child's serialized descriptor and therefore its LayerId: the
parents map is keyed by the parent's name, not only its LayerId. -/
theorem layer_id_depends_on_parent_name :
    (processGenerated "child" ["parentA"] (fun _ => parentIdX) 4 false
        TextureFormat.R32F "sh" "ce").2 ≠
      (processGenerated "child" ["parentB"] (fun _ => parentIdX) 4 false
        TextureFormat.R32F "sh" "ce").2 := by
  decide

lemma btree_fold_congr (ids₁ ids₂ : String → LayerId) :
    ∀ (inputs : List String) (acc : List (String × LayerId)),
      (∀ n ∈ inputs, ids₁ n = ids₂ n) →
      inputs.foldl (fun acc input => btreeInsert acc input (ids₁ input)) acc =
        inputs.foldl (fun acc input => btreeInsert acc input (ids₂ input)) acc := by
  intro inputs
  induction inputs with
  | nil => intro acc h; rfl
  | cons n ns ih =>
    intro acc h
    simp only [List.foldl_cons]
    rw [h n (List.mem_cons_self _ _)]
    exact ih _ (fun m hm => h m (List.mem_cons_of_mem _ hm))

/-- C2 amended: the LayerId of a Generated layer is a function of its
canonical descriptor alone — it does not depend on the layer's own node
name, and it depends on the resolved parents only through the name → LayerId
assignment of the declared inputs — but it does depend on the parents'
names (see the counterexample), not only on their LayerIds. -/
theorem layer_id_of_generated_determined
    (name₁ name₂ : String) (inputs : List String)
    (ids₁ ids₂ : String → LayerId) (resolution : Nat) (corner : Bool)
    (format : TextureFormat) (shader center : String)
    (hids : ∀ n ∈ inputs, ids₁ n = ids₂ n) :
    (processGenerated name₁ inputs ids₁ resolution corner format
        shader center).2 =
      (processGenerated name₂ inputs ids₂ resolution corner format
        shader center).2 := by
  unfold processGenerated mkGeneratedDesc
  dsimp only
  rw [btree_fold_congr ids₁ ids₂ inputs [] hids]

/-- Closed witness for layer_id_of_generated_determined: renaming the child
node itself leaves its LayerId unchanged. -/
theorem layer_id_of_generated_determined_witness :
    (processGenerated "childA" ["p"] (fun _ => parentIdX) 4 false
        TextureFormat.R32F "sh" "ce").2 =
      (processGenerated "childB" ["p"] (fun _ => parentIdX) 4 false
        TextureFormat.R32F "sh" "ce").2 :=
  layer_id_of_generated_determined "childA" "childB" ["p"] _ _ 4 false
    TextureFormat.R32F "sh" "ce" (fun _ _ => rfl)

/-! ### QuadTree visibility update (terrain/quadtree/mod.rs lines 136-192)

Node (quadtree/node.rs) is not part of the observed source; only the fields
read by update_visibility are modelled: priority, tile_indices (per layer
type an optional layer index, as used by `tile_indices[layer]` and the
filter_map in the visibility pass), children (four optional NodeIds) and the
visible flag.  Priority::cutoff() (terrain/tile_cache.rs, also not in the
observed source) is an ordered constant; it enters only through the
comparison `priority >= cutoff` and is passed as a parameter, with priority
values in ℚ.  TileCache::contains is passed as the oracle
`contains : layer index → node id → Bool`.

breadth_first is a queue loop; it is given fuel equal to the number of
nodes, which suffices for every well-formed arena (each node is enqueued at
most once), as the proofs below establish. -/

/-- The quadtree node fields read by update_visibility. -/
structure QNode where
  priority : ℚ
  tile_indices : List (Option Nat)
  children : List (Option Nat)
  visible : Bool
deriving DecidableEq, Repr

/-- The quadtree state mutated by update_visibility: the node arena and the
render list. -/
structure QTState where
  nodes : List QNode
  visible_nodes : List Nat
deriving DecidableEq, Repr

/-- Visible flag of node j (false when j is out of range, which a
well-formed run never queries). -/
def flagOf (s : QTState) (j : Nat) : Bool :=
  ((s.nodes[j]?).map QNode.visible).getD false

/-- Children array of node n. -/
def childrenOf (s : QTState) (n : Nat) : List (Option Nat) :=
  ((s.nodes[n]?).map QNode.children).getD []

/-- Processing of one optional child slot inside the queue loop: visit the
child and enqueue it if the visit returned true. -/
def bfsFold (visit : QTState → Nat → QTState × Bool)
    (acc : QTState × List Nat) (c : Option Nat) : QTState × List Nat :=
  match c with
  | none => acc
  | some child =>
    let r := visit acc.1 child
    (r.1, if r.2 then acc.2 ++ [child] else acc.2)

/-- One step of the queue loop of breadth_first
(quadtree/mod.rs lines 175-192): pop the front node, visit each of its
children in order, enqueue the ones whose visit returned true.  The Rust
loop re-reads nodes[id].children[i] at every iteration; the children list is
read once here, which is equivalent because neither visibility visitor
writes a children field. -/
def bfLoop (visit : QTState → Nat → QTState × Bool) :
    Nat → QTState → List Nat → QTState
  | 0, s, _ => s
  | _ + 1, s, [] => s
  | fuel + 1, s, n :: queue =>
    let step := (childrenOf s n).foldl (bfsFold visit) (s, queue)
    bfLoop visit fuel step.1 step.2

/-- breadth_first (quadtree/mod.rs lines 175-192): visit the root, and if it
returns true run the queue loop seeded with the root. -/
def breadthFirst (visit : QTState → Nat → QTState × Bool) (s : QTState) :
    QTState :=
  let r := visit s 0
  if r.2 then bfLoop visit s.nodes.length r.1 [0] else r.1

/-- Tentative-visibility predicate of phase A for node n, from the node
data: priority at least the cutoff and every required layer resident. -/
def predA (contains : Nat → Nat → Bool) (cutoff : ℚ) (s : QTState)
    (n : Nat) : Bool :=
  match s.nodes[n]? with
  | some node =>
    decide (cutoff ≤ node.priority) &&
      (node.tile_indices.filterMap (fun o => o)).all (fun l => contains l n)
  | none => false

/-- Phase A visitor (quadtree/mod.rs lines 142-150): set the node's visible
flag to the tentative-visibility predicate and return it. -/
def phaseAVisit (contains : Nat → Nat → Bool) (cutoff : ℚ) (s : QTState)
    (n : Nat) : QTState × Bool :=
  match s.nodes[n]? with
  | some node =>
    let vis := decide (cutoff ≤ node.priority) &&
      (node.tile_indices.filterMap (fun o => o)).all (fun l => contains l n)
    ({ s with nodes := s.nodes.set n { node with visible := vis } }, vis)
  | none => (s, false)

/-- Phase B visitor (quadtree/mod.rs lines 152-163): a visible node becomes
invisible when all four children are visible, is pushed onto the render list
when it stays visible, and the traversal descends (returns true) from every
node that entered the phase visible. -/
def phaseBVisit (s : QTState) (n : Nat) : QTState × Bool :=
  match s.nodes[n]? with
  | some node =>
    if node.visible then
      let vis := ! node.children.all (fun c =>
        match c with
        | some c => ((s.nodes[c]?).map QNode.visible).getD false
        | none => false)
      let s1 : QTState :=
        { s with nodes := s.nodes.set n { node with visible := vis } }
      (if vis then { s1 with visible_nodes := s1.visible_nodes ++ [n] } else s1,
        true)
    else (s, false)
  | none => (s, false)

/-- The flag reset and render-list clear at the start of update_visibility
(quadtree/mod.rs lines 137-140). -/
def resetVisibility (s : QTState) : QTState :=
  { nodes := s.nodes.map (fun n => { n with visible := false }),
    visible_nodes := [] }

/-- Phase A of update_visibility: reset, then the first breadth-first
pass. -/
def QuadTree.phaseA (contains : Nat → Nat → Bool) (cutoff : ℚ)
    (s : QTState) : QTState :=
  breadthFirst (phaseAVisit contains cutoff) (resetVisibility s)

/-- QuadTree::update_visibility (quadtree/mod.rs lines 136-164): the reset,
the tentative-visibility pass and the refinement pass. -/
def QuadTree.update_visibility (contains : Nat → Nat → Bool) (cutoff : ℚ)
    (s : QTState) : QTState :=
  breadthFirst phaseBVisit (QuadTree.phaseA contains cutoff s)

/-- Two states with the same arena shape: equal length and equal fields
apart from the visible flag. -/
def SameShape (a b : QTState) : Prop :=
  a.nodes.length = b.nodes.length ∧
  ∀ j : Nat, (a.nodes[j]?).map
      (fun n : QNode => (n.priority, n.tile_indices, n.children))
    = (b.nodes[j]?).map
      (fun n : QNode => (n.priority, n.tile_indices, n.children))

/-- Nodes visited by a breadth-first pass: the root, and every child of a
visited node whose visit returned true. -/
inductive BfsVisited (ch : Nat → List (Option Nat)) (pred : Nat → Bool) :
    Nat → Prop where
  | root : BfsVisited ch pred 0
  | step {i j : Nat} : BfsVisited ch pred i → pred i = true →
      some j ∈ ch i → BfsVisited ch pred j

/-- Well-formed node arena: four child slots per node, child ids in range
and strictly greater than the parent id, children of a node pairwise
distinct, and no two nodes share a child (Node::make_nodes builds such an
arena; root = 0). -/
def ArenaWF (st : QTState) : Prop :=
  (∀ i : Nat, i < st.nodes.length → (childrenOf st i).length = 4) ∧
  (∀ i j : Nat, some j ∈ childrenOf st i → i < j ∧ j < st.nodes.length) ∧
  (∀ i : Nat, ((childrenOf st i).filterMap (fun o => o)).Nodup) ∧
  (∀ i₁ i₂ j : Nat, some j ∈ childrenOf st i₁ → some j ∈ childrenOf st i₂ →
    i₁ = i₂)

/-- All four children of a node are currently marked visible (the quantity
negated by the phase B visitor). -/
def allChildVisible (st : QTState) (n : Nat) : Bool :=
  (childrenOf st n).all (fun c =>
    match c with
    | some c => flagOf st c
    | none => false)

/-- Canonical state effect of one visit: when `writes n`, set the visible
flag of n to `newflag n` and append n to the render list when `push n`. -/
def applySpec (writes newflag push : Nat → Bool) (s : QTState) (n : Nat) :
    QTState :=
  if writes n = true then
    { nodes :=
        match s.nodes[n]? with
        | some nd => s.nodes.set n { nd with visible := newflag n }
        | none => s.nodes,
      visible_nodes :=
        if push n = true then s.visible_nodes ++ [n] else s.visible_nodes }
  else s

/-- A visitor follows the spec functions (pred, writes, newflag, push) as
long as the flags it reads still hold their initial values. -/
def VisitSpec (init : QTState) (visit : QTState → Nat → QTState × Bool)
    (pred writes newflag push : Nat → Bool) : Prop :=
  ∀ (s : QTState) (n : Nat), n < init.nodes.length → SameShape init s →
    flagOf s n = flagOf init n →
    (∀ c : Nat, some c ∈ childrenOf init n → flagOf s c = flagOf init c) →
    visit s n = (applySpec writes newflag push s n, pred n)

lemma sameShape_refl (s : QTState) : SameShape s s := ⟨rfl, fun _ => rfl⟩

lemma childrenOf_eq_of_shape {a b : QTState} (h : SameShape a b) (n : Nat) :
    childrenOf b n = childrenOf a n := by
  unfold childrenOf
  have h2 := h.2 n
  cases ha : a.nodes[n]? with
  | none =>
    rw [ha] at h2
    cases hb : b.nodes[n]? with
    | none => rfl
    | some y => rw [hb] at h2; exact absurd h2 (by simp)
  | some x =>
    rw [ha] at h2
    cases hb : b.nodes[n]? with
    | none => rw [hb] at h2; exact absurd h2 (by simp)
    | some y =>
      rw [hb] at h2
      simp only [Option.map_some', Option.some.injEq, Prod.mk.injEq] at h2
      simp [h2.2.2]

lemma arenaWF_of_shape {a b : QTState} (h : SameShape a b) (hwf : ArenaWF a) :
    ArenaWF b := by
  obtain ⟨w1, w2, w3, w4⟩ := hwf
  refine ⟨?_, ?_, ?_, ?_⟩
  · intro i hi
    rw [childrenOf_eq_of_shape h]
    exact w1 i (h.1 ▸ hi)
  · intro i j hj
    rw [childrenOf_eq_of_shape h] at hj
    have hlen := h.1
    have := w2 i j hj
    omega
  · intro i
    rw [childrenOf_eq_of_shape h]
    exact w3 i
  · intro i₁ i₂ j h1 h2
    rw [childrenOf_eq_of_shape h] at h1 h2
    exact w4 i₁ i₂ j h1 h2

lemma list_all_congr {α : Type} (l : List α) (f g : α → Bool)
    (h : ∀ x ∈ l, f x = g x) : l.all f = l.all g := by
  induction l with
  | nil => rfl
  | cons x xs ih =>
    simp only [List.all_cons]
    rw [h x (List.mem_cons_self _ _), ih (fun y hy => h y (List.mem_cons_of_mem _ hy))]

lemma getElem?_isSome_of_lt {l : List QNode} {n : Nat} (h : n < l.length) :
    ∃ nd, l[n]? = some nd := by
  cases hx : l[n]? with
  | none => rw [List.getElem?_eq_none_iff] at hx; omega
  | some nd => exact ⟨nd, rfl⟩

lemma flagOf_set_self {s : QTState} {n : Nat} {nd : QNode}
    (h : s.nodes[n]? = some nd) (b : Bool) :
    flagOf { s with nodes := s.nodes.set n { nd with visible := b } } n = b := by
  unfold flagOf
  have hn : n < s.nodes.length := by
    obtain ⟨hlt, -⟩ := List.getElem?_eq_some_iff.mp h
    exact hlt
  simp [List.getElem?_set_self (by simpa using hn)]

lemma flagOf_set_ne {s : QTState} {n j : Nat} {nd : QNode} (hne : j ≠ n)
    (b : Bool) :
    flagOf { s with nodes := s.nodes.set n { nd with visible := b } } j
      = flagOf s j := by
  unfold flagOf
  rw [List.getElem?_set_ne (fun hc => hne hc.symm)]

lemma applySpec_shape {init s : QTState} (h : SameShape init s)
    (writes newflag push : Nat → Bool) (n : Nat) :
    SameShape init (applySpec writes newflag push s n) := by
  unfold applySpec
  split
  · constructor
    · cases hs : s.nodes[n]? with
      | none => exact h.1
      | some nd => simpa using h.1
    · intro j
      cases hs : s.nodes[n]? with
      | none => exact h.2 j
      | some nd =>
        by_cases hj : j = n
        · subst hj
          have h2 := h.2 j
          rw [hs] at h2
          have hlt : j < s.nodes.length := by
            obtain ⟨hlt, -⟩ := List.getElem?_eq_some_iff.mp hs
            exact hlt
          simpa [List.getElem?_set_self (by simpa using hlt)] using h2
        · rw [List.getElem?_set_ne (fun hc => hj hc.symm)]
          exact h.2 j
  · exact h

lemma flagOf_applySpec_self {s : QTState} {n : Nat}
    (writes newflag push : Nat → Bool) (hn : n < s.nodes.length) :
    flagOf (applySpec writes newflag push s n) n
      = if writes n = true then newflag n else flagOf s n := by
  obtain ⟨nd, hnd⟩ := getElem?_isSome_of_lt hn
  unfold applySpec
  split
  · rename_i hw
    rw [hnd]
    exact flagOf_set_self hnd (newflag n)
  · rfl

lemma flagOf_applySpec_ne {s : QTState} {n j : Nat} (hne : j ≠ n)
    (writes newflag push : Nat → Bool) :
    flagOf (applySpec writes newflag push s n) j = flagOf s j := by
  unfold applySpec
  split
  · cases hs : s.nodes[n]? with
    | none => rfl
    | some nd => exact flagOf_set_ne hne (newflag n)
  · rfl

lemma mem_visible_applySpec {s : QTState} {n j : Nat}
    (writes newflag push : Nat → Bool) :
    j ∈ (applySpec writes newflag push s n).visible_nodes ↔
      (j ∈ s.visible_nodes ∨ (writes n = true ∧ push n = true ∧ j = n)) := by
  unfold applySpec
  split
  · rename_i hw
    cases hs : s.nodes[n]? <;>
      · dsimp only
        split
        · rename_i hp
          simp only [List.mem_append, List.mem_singleton]
          constructor
          · rintro (h | h)
            · exact Or.inl h
            · exact Or.inr ⟨hw, hp, h⟩
          · rintro (h | ⟨-, -, h⟩)
            · exact Or.inl h
            · exact Or.inr h
        · rename_i hp
          simp [hp]
  · rename_i hw
    simp [hw]

/-- Invariant pieces shared by the whole queue loop, with the clause about
finished nodes' children excepting the node n whose children are currently
being processed. -/
structure FoldInv (init : QTState) (pred writes newflag push : Nat → Bool)
    (n : Nat) (s : QTState) (q done : List Nat) : Prop where
  shape : SameShape init s
  doneNodup : done.Nodup
  qNodup : q.Nodup
  qSubDone : ∀ m ∈ q, m ∈ done
  rootDone : (0 : Nat) ∈ done
  doneLt : ∀ j ∈ done, j < init.nodes.length
  doneVisited : ∀ j ∈ done, BfsVisited (childrenOf init) pred j
  flagDone : ∀ j ∈ done,
    flagOf s j = (if writes j = true then newflag j else flagOf init j)
  flagUndone : ∀ j : Nat, j ∉ done → flagOf s j = flagOf init j
  visChar : ∀ j : Nat, j ∈ s.visible_nodes ↔
    (j ∈ init.visible_nodes ∨ (j ∈ done ∧ writes j = true ∧ push j = true))
  qPred : ∀ m ∈ q, pred m = true
  childDoneExc : ∀ i ∈ done, i ∉ q → pred i = true → i ≠ n →
    ∀ c : Nat, some c ∈ childrenOf init i → c ∈ done
  provenance : ∀ j ∈ done, j ≠ 0 →
    ∃ i, i ∈ done ∧ i ∉ q ∧ pred i = true ∧ some j ∈ childrenOf init i

/-- Full invariant of the queue loop. -/
structure BfsInv (init : QTState) (pred writes newflag push : Nat → Bool)
    (s : QTState) (q done : List Nat) (fuel : Nat) : Prop where
  shape : SameShape init s
  doneNodup : done.Nodup
  qNodup : q.Nodup
  qSubDone : ∀ m ∈ q, m ∈ done
  rootDone : (0 : Nat) ∈ done
  doneLt : ∀ j ∈ done, j < init.nodes.length
  doneVisited : ∀ j ∈ done, BfsVisited (childrenOf init) pred j
  flagDone : ∀ j ∈ done,
    flagOf s j = (if writes j = true then newflag j else flagOf init j)
  flagUndone : ∀ j : Nat, j ∉ done → flagOf s j = flagOf init j
  visChar : ∀ j : Nat, j ∈ s.visible_nodes ↔
    (j ∈ init.visible_nodes ∨ (j ∈ done ∧ writes j = true ∧ push j = true))
  qPred : ∀ m ∈ q, pred m = true
  childDone : ∀ i ∈ done, i ∉ q → pred i = true →
    ∀ c : Nat, some c ∈ childrenOf init i → c ∈ done
  provenance : ∀ j ∈ done, j ≠ 0 →
    ∃ i, i ∈ done ∧ i ∉ q ∧ pred i = true ∧ some j ∈ childrenOf init i
  fuelOk : q.length + (init.nodes.length - done.length) ≤ fuel

lemma nodup_lt_length_le {l : List Nat} {N : Nat} (hnd : l.Nodup)
    (hlt : ∀ x ∈ l, x < N) : l.length ≤ N := by
  have hsub : l ⊆ List.range N := by
    intro x hx
    exact List.mem_range.mpr (hlt x hx)
  have := (List.subperm_of_subset hnd hsub).length_le
  simpa using this

/-- A child of a node still in the queue has not been visited yet. -/
lemma child_fresh {init : QTState} {pred : Nat → Bool} (hwf : ArenaWF init)
    {done q : List Nat} {n c : Nat}
    (hprov : ∀ j ∈ done, j ≠ 0 →
      ∃ i, i ∈ done ∧ i ∉ q ∧ pred i = true ∧ some j ∈ childrenOf init i)
    (hn : n ∈ q) (hc : some c ∈ childrenOf init n) : c ∉ done := by
  intro hcd
  have hc0 : c ≠ 0 := by
    have := hwf.2.1 n c hc
    omega
  obtain ⟨i, hid, hiq, -, hichild⟩ := hprov c hcd hc0
  have : i = n := hwf.2.2.2 i n c hichild hc
  subst this
  exact hiq hn

/-- A child of a node that has not been visited itself has not been visited
either. -/
lemma child_fresh_of_parent_fresh {init : QTState} {pred : Nat → Bool}
    (hwf : ArenaWF init) {done q : List Nat} {c g : Nat}
    (hprov : ∀ j ∈ done, j ≠ 0 →
      ∃ i, i ∈ done ∧ i ∉ q ∧ pred i = true ∧ some j ∈ childrenOf init i)
    (hc : c ∉ done) (hg : some g ∈ childrenOf init c) : g ∉ done := by
  intro hgd
  have hg0 : g ≠ 0 := by
    have := hwf.2.1 c g hg
    omega
  obtain ⟨i, hid, -, -, hichild⟩ := hprov g hgd hg0
  have : i = c := hwf.2.2.2 i c g hichild hg
  subst this
  exact hc hid

lemma bfs_fold_spec (init : QTState) (visit : QTState → Nat → QTState × Bool)
    (pred writes newflag push : Nat → Bool)
    (hwf : ArenaWF init) (hvs : VisitSpec init visit pred writes newflag push)
    (n : Nat) :
    ∀ (cs : List (Option Nat)) (s : QTState) (q done : List Nat),
      FoldInv init pred writes newflag push n s q done →
      n ∈ done → n ∉ q → pred n = true →
      (∀ c : Nat, some c ∈ cs → some c ∈ childrenOf init n) →
      (∀ c : Nat, some c ∈ cs → c ∉ done) →
      (cs.filterMap (fun o => o)).Nodup →
      ∃ done' : List Nat,
        FoldInv init pred writes newflag push n
          (cs.foldl (bfsFold visit) (s, q)).1
          (cs.foldl (bfsFold visit) (s, q)).2 done' ∧
        (∀ j ∈ done, j ∈ done') ∧
        (∀ c : Nat, some c ∈ cs → c ∈ done') ∧
        ∃ d : Nat, done'.length = done.length + d ∧
          (cs.foldl (bfsFold visit) (s, q)).2.length ≤ q.length + d := by
  intro cs
  induction cs with
  | nil =>
    intro s q done hF hnd hnq hpn hsub hfresh hnodup
    exact ⟨done, hF, fun j hj => hj, by simp, 0, rfl, by simp⟩
  | cons c₀ rest ih =>
    intro s q done hF hnd hnq hpn hsub hfresh hnodup
    cases c₀ with
    | none =>
      rw [List.foldl_cons, show bfsFold visit (s, q) none = (s, q) from rfl]
      obtain ⟨done', hF', hmono, hcs, d, hdl, hql⟩ := ih s q done hF hnd hnq hpn
        (fun c hc => hsub c (List.mem_cons_of_mem _ hc))
        (fun c hc => hfresh c (List.mem_cons_of_mem _ hc))
        (by simpa using hnodup)
      exact ⟨done', hF', hmono, fun c hc => hcs c (by simpa using hc), d, hdl,
        hql⟩
    | some c =>
      have hcch : some c ∈ childrenOf init n := hsub c (List.mem_cons_self _ _)
      have hcd : c ∉ done := hfresh c (List.mem_cons_self _ _)
      have hbounds := hwf.2.1 n c hcch
      have hcN : c < init.nodes.length := hbounds.2
      have hnc : n < c := hbounds.1
      have hncq : n ≠ c := by omega
      have hvisit := hvs s c hcN hF.shape (hF.flagUndone c hcd)
        (fun g hg => hF.flagUndone g
          (child_fresh_of_parent_fresh hwf hF.provenance hcd hg))
      have hstep : bfsFold visit (s, q) (some c)
          = (applySpec writes newflag push s c,
             if pred c = true then q ++ [c] else q) := by
        simp only [bfsFold, hvisit]
      rw [List.foldl_cons, hstep]
      set s₂ := applySpec writes newflag push s c with hs₂
      set q₂ := if pred c = true then q ++ [c] else q with hq₂
      set done₂ := done ++ [c] with hdone₂
      have hdone₂mem : ∀ j : Nat, j ∈ done₂ ↔ (j ∈ done ∨ j = c) := by
        intro j
        simp [hdone₂]
      have hq₂mem : ∀ m : Nat, m ∈ q₂ ↔ (m ∈ q ∨ (pred c = true ∧ m = c)) := by
        intro m
        by_cases hpc : pred c = true <;> simp [hq₂, hpc]
      have hcq : c ∉ q := fun hc => hcd (hF.qSubDone c hc)
      have hq₂nodup : q₂.Nodup := by
        by_cases hpc : pred c = true
        · rw [hq₂, if_pos hpc, List.nodup_append]
          exact ⟨hF.qNodup, by simp, fun a ha hb => by
            simp only [List.mem_singleton] at hb
            subst hb
            exact hcq ha⟩
        · rw [hq₂, if_neg hpc]
          exact hF.qNodup
      have hq₂len : q₂.length ≤ q.length + 1 := by
        by_cases hpc : pred c = true <;> simp [hq₂, hpc]
      have hnq₂ : n ∉ q₂ := by
        intro hmem
        rcases (hq₂mem n).mp hmem with h | ⟨-, h⟩
        · exact hnq h
        · exact hncq h
      have hvisited : BfsVisited (childrenOf init) pred c :=
        BfsVisited.step (hF.doneVisited n hnd) hpn hcch
      have hF₂ : FoldInv init pred writes newflag push n s₂ q₂ done₂ := by
        refine ⟨applySpec_shape hF.shape _ _ _ _, ?_, hq₂nodup, ?_, ?_, ?_, ?_,
          ?_, ?_, ?_, ?_, ?_, ?_⟩
        · rw [hdone₂, List.nodup_append]
          exact ⟨hF.doneNodup, by simp, fun a ha hb => by
            simp only [List.mem_singleton] at hb
            subst hb
            exact hcd ha⟩
        · intro m hm
          rcases (hq₂mem m).mp hm with h | ⟨-, h⟩
          · exact (hdone₂mem m).mpr (Or.inl (hF.qSubDone m h))
          · exact (hdone₂mem m).mpr (Or.inr h)
        · exact (hdone₂mem 0).mpr (Or.inl hF.rootDone)
        · intro j hj
          rcases (hdone₂mem j).mp hj with h | h
          · exact hF.doneLt j h
          · subst h
            exact hcN
        · intro j hj
          rcases (hdone₂mem j).mp hj with h | h
          · exact hF.doneVisited j h
          · subst h
            exact hvisited
        · intro j hj
          rcases (hdone₂mem j).mp hj with h | h
          · have hne : j ≠ c := fun hc => hcd (hc ▸ h)
            rw [hs₂, flagOf_applySpec_ne hne]
            exact hF.flagDone j h
          · subst h
            rw [hs₂, flagOf_applySpec_self _ _ _ (hF.shape.1 ▸ hcN),
              hF.flagUndone j hcd]
        · intro j hj
          have hjd : j ∉ done := fun h => hj ((hdone₂mem j).mpr (Or.inl h))
          have hne : j ≠ c := fun h => hj ((hdone₂mem j).mpr (Or.inr h))
          rw [hs₂, flagOf_applySpec_ne hne]
          exact hF.flagUndone j hjd
        · intro j
          rw [hs₂, mem_visible_applySpec, hF.visChar j]
          constructor
          · rintro ((h | ⟨h1, h2, h3⟩) | ⟨h1, h2, h3⟩)
            · exact Or.inl h
            · exact Or.inr ⟨(hdone₂mem j).mpr (Or.inl h1), h2, h3⟩
            · subst h3
              exact Or.inr ⟨(hdone₂mem j).mpr (Or.inr rfl), h1, h2⟩
          · rintro (h | ⟨h1, h2, h3⟩)
            · exact Or.inl (Or.inl h)
            · rcases (hdone₂mem j).mp h1 with h | h
              · exact Or.inl (Or.inr ⟨h, h2, h3⟩)
              · subst h
                exact Or.inr ⟨h2, h3, rfl⟩
        · intro m hm
          rcases (hq₂mem m).mp hm with h | ⟨h1, h2⟩
          · exact hF.qPred m h
          · subst h2
            exact h1
        · intro i hi hiq hip hin c' hc'
          rcases (hdone₂mem i).mp hi with h | h
          · have hiq' : i ∉ q := fun hc => hiq ((hq₂mem i).mpr (Or.inl hc))
            exact (hdone₂mem c').mpr
              (Or.inl (hF.childDoneExc i h hiq' hip hin c' hc'))
          · subst h
            by_cases hpc : pred i = true
            · exact absurd ((hq₂mem i).mpr (Or.inr ⟨hpc, rfl⟩)) hiq
            · exact absurd hip hpc
        · intro j hj hj0
          rcases (hdone₂mem j).mp hj with h | h
          · obtain ⟨i, hid, hiq, hip, hich⟩ := hF.provenance j h hj0
            refine ⟨i, (hdone₂mem i).mpr (Or.inl hid), ?_, hip, hich⟩
            intro hmem
            rcases (hq₂mem i).mp hmem with hh | ⟨-, hh⟩
            · exact hiq hh
            · exact hcd (hh ▸ hid)
          · subst h
            refine ⟨n, (hdone₂mem n).mpr (Or.inl hnd), hnq₂, hpn, hcch⟩
      have hrestnodup : (rest.filterMap (fun o => o)).Nodup := by
        have : ((some c :: rest).filterMap (fun o => o))
            = c :: rest.filterMap (fun o => o) := rfl
        rw [this] at hnodup
        exact hnodup.of_cons
      have hcnotinrest : ∀ c' : Nat, some c' ∈ rest → c' ≠ c := by
        intro c' hc' heq
        subst heq
        have hmem : c' ∈ rest.filterMap (fun o => o) :=
          List.mem_filterMap.mpr ⟨some c', hc', rfl⟩
        have : ((some c' :: rest).filterMap (fun o => o))
            = c' :: rest.filterMap (fun o => o) := rfl
        rw [this] at hnodup
        exact (List.nodup_cons.mp hnodup).1 hmem
      obtain ⟨done', hF', hmono, hcs, d, hdl, hql⟩ := ih s₂ q₂ done₂ hF₂
        ((hdone₂mem n).mpr (Or.inl hnd)) hnq₂ hpn
        (fun c' hc' => hsub c' (List.mem_cons_of_mem _ hc'))
        (fun c' hc' => by
          intro hmem
          rcases (hdone₂mem c').mp hmem with h | h
          · exact hfresh c' (List.mem_cons_of_mem _ hc') h
          · exact hcnotinrest c' hc' h)
        hrestnodup
      refine ⟨done', hF', ?_, ?_, d + 1, ?_, ?_⟩
      · intro j hj
        exact hmono j ((hdone₂mem j).mpr (Or.inl hj))
      · intro c' hc'
        rcases List.mem_cons.mp hc' with h | h
        · have : c' = c := by injection h
          subst this
          exact hmono c' ((hdone₂mem c').mpr (Or.inr rfl))
        · exact hcs c' h
      · rw [hdl, hdone₂]
        simp
        omega
      · have : done₂.length = done.length + 1 := by simp [hdone₂]
        omega

lemma bfLoop_spec (init : QTState) (visit : QTState → Nat → QTState × Bool)
    (pred writes newflag push : Nat → Bool)
    (hwf : ArenaWF init) (hvs : VisitSpec init visit pred writes newflag push) :
    ∀ (fuel : Nat) (s : QTState) (q done : List Nat),
      BfsInv init pred writes newflag push s q done fuel →
      ∃ done', BfsInv init pred writes newflag push
        (bfLoop visit fuel s q) [] done' init.nodes.length := by
  intro fuel
  induction fuel with
  | zero =>
    intro s q done hInv
    have hq : q = [] := by
      have h1 := hInv.fuelOk
      have h2 : q.length = 0 := by omega
      exact List.length_eq_zero.mp h2
    subst hq
    exact ⟨done, ⟨hInv.shape, hInv.doneNodup, hInv.qNodup, hInv.qSubDone,
      hInv.rootDone, hInv.doneLt, hInv.doneVisited, hInv.flagDone,
      hInv.flagUndone, hInv.visChar, hInv.qPred, hInv.childDone,
      hInv.provenance, by simp⟩⟩
  | succ fuel ih =>
    intro s q done hInv
    cases q with
    | nil =>
      exact ⟨done, ⟨hInv.shape, hInv.doneNodup, hInv.qNodup, hInv.qSubDone,
        hInv.rootDone, hInv.doneLt, hInv.doneVisited, hInv.flagDone,
        hInv.flagUndone, hInv.visChar, hInv.qPred, hInv.childDone,
        hInv.provenance, by simp⟩⟩
    | cons n queue =>
      have hnd : n ∈ done := hInv.qSubDone n (List.mem_cons_self _ _)
      have hnq : n ∉ queue := (List.nodup_cons.mp hInv.qNodup).1
      have hpn : pred n = true := hInv.qPred n (List.mem_cons_self _ _)
      have hF : FoldInv init pred writes newflag push n s queue done := by
        refine ⟨hInv.shape, hInv.doneNodup, (List.nodup_cons.mp hInv.qNodup).2,
          fun m hm => hInv.qSubDone m (List.mem_cons_of_mem _ hm),
          hInv.rootDone, hInv.doneLt, hInv.doneVisited, hInv.flagDone,
          hInv.flagUndone, hInv.visChar,
          fun m hm => hInv.qPred m (List.mem_cons_of_mem _ hm), ?_, ?_⟩
        · intro i hi hiq hip hin c hc
          have hni : i ∉ n :: queue := by
            simp only [List.mem_cons]
            rintro (h | h)
            · exact hin h
            · exact hiq h
          exact hInv.childDone i hi hni hip c hc
        · intro j hj hj0
          obtain ⟨i, h1, h2, h3, h4⟩ := hInv.provenance j hj hj0
          exact ⟨i, h1, fun hc => h2 (List.mem_cons_of_mem _ hc), h3, h4⟩
      obtain ⟨done', hF', hmono, hcs, d, hdl, hql⟩ := bfs_fold_spec init visit
        pred writes newflag push hwf hvs n (childrenOf init n) s queue done hF
        hnd hnq hpn (fun c hc => hc)
        (fun c hc =>
          child_fresh hwf hInv.provenance (List.mem_cons_self n queue) hc)
        (hwf.2.2.1 n)
      have hch : childrenOf s n = childrenOf init n :=
        childrenOf_eq_of_shape hInv.shape n
      have hunfold : bfLoop visit (fuel + 1) s (n :: queue)
          = bfLoop visit fuel
              ((childrenOf init n).foldl (bfsFold visit) (s, queue)).1
              ((childrenOf init n).foldl (bfsFold visit) (s, queue)).2 := by
        rw [show bfLoop visit (fuel + 1) s (n :: queue)
            = bfLoop visit fuel
                ((childrenOf s n).foldl (bfsFold visit) (s, queue)).1
                ((childrenOf s n).foldl (bfsFold visit) (s, queue)).2 from rfl,
          hch]
      rw [hunfold]
      refine ih _ _ done' ⟨hF'.shape, hF'.doneNodup, hF'.qNodup, hF'.qSubDone,
        hF'.rootDone, hF'.doneLt, hF'.doneVisited, hF'.flagDone,
        hF'.flagUndone, hF'.visChar, hF'.qPred, ?_, hF'.provenance, ?_⟩
      · intro i hi hiq hip c hc
        by_cases hin : i = n
        · subst hin
          exact hcs c hc
        · exact hF'.childDoneExc i hi hiq hip hin c hc
      · have h1 := hInv.fuelOk
        have h2 : done.length ≤ init.nodes.length :=
          nodup_lt_length_le hInv.doneNodup hInv.doneLt
        have h3 : done'.length ≤ init.nodes.length :=
          nodup_lt_length_le hF'.doneNodup hF'.doneLt
        simp only [List.length_cons] at h1
        omega

lemma breadthFirst_inv (init : QTState) (visit : QTState → Nat → QTState × Bool)
    (pred writes newflag push : Nat → Bool)
    (hwf : ArenaWF init) (hvs : VisitSpec init visit pred writes newflag push)
    (hN : 0 < init.nodes.length) :
    ∃ done', BfsInv init pred writes newflag push
      (breadthFirst visit init) [] done' init.nodes.length := by
  unfold breadthFirst
  have hroot := hvs init 0 hN (sameShape_refl init) rfl (fun c _ => rfl)
  dsimp only
  rw [hroot]
  dsimp only
  by_cases hp : pred 0 = true
  · rw [if_pos hp]
    refine bfLoop_spec init visit pred writes newflag push hwf hvs
      init.nodes.length _ [0] [0] ?_
    refine ⟨applySpec_shape (sameShape_refl init) _ _ _ _, by simp, by simp,
      fun m hm => hm, by simp, ?_, ?_, ?_, ?_, ?_, ?_, ?_, ?_, ?_⟩
    · intro j hj
      simp only [List.mem_singleton] at hj
      subst hj
      exact hN
    · intro j hj
      simp only [List.mem_singleton] at hj
      subst hj
      exact BfsVisited.root
    · intro j hj
      simp only [List.mem_singleton] at hj
      subst hj
      exact flagOf_applySpec_self _ _ _ hN
    · intro j hj
      simp only [List.mem_singleton] at hj
      exact flagOf_applySpec_ne hj _ _ _
    · intro j
      rw [mem_visible_applySpec]
      simp only [List.mem_singleton]
      constructor
      · rintro (h | ⟨h1, h2, rfl⟩)
        · exact Or.inl h
        · exact Or.inr ⟨rfl, h1, h2⟩
      · rintro (h | ⟨rfl, h2, h3⟩)
        · exact Or.inl h
        · exact Or.inr ⟨h2, h3, rfl⟩
    · intro m hm
      simp only [List.mem_singleton] at hm
      subst hm
      exact hp
    · intro i hi hiq hip c hc
      simp only [List.mem_singleton] at hi
      subst hi
      exact absurd (List.mem_singleton.mpr rfl) hiq
    · intro j hj hj0
      simp only [List.mem_singleton] at hj
      exact absurd hj hj0
    · simp only [List.length_singleton]
      omega
  · rw [if_neg hp]
    refine ⟨[0], applySpec_shape (sameShape_refl init) _ _ _ _, by simp,
      by simp, by simp, by simp, ?_, ?_, ?_, ?_, ?_, by simp, ?_, ?_, ?_⟩
    · intro j hj
      simp only [List.mem_singleton] at hj
      subst hj
      exact hN
    · intro j hj
      simp only [List.mem_singleton] at hj
      subst hj
      exact BfsVisited.root
    · intro j hj
      simp only [List.mem_singleton] at hj
      subst hj
      exact flagOf_applySpec_self _ _ _ hN
    · intro j hj
      simp only [List.mem_singleton] at hj
      exact flagOf_applySpec_ne hj _ _ _
    · intro j
      rw [mem_visible_applySpec]
      simp only [List.mem_singleton]
      constructor
      · rintro (h | ⟨h1, h2, rfl⟩)
        · exact Or.inl h
        · exact Or.inr ⟨rfl, h1, h2⟩
      · rintro (h | ⟨rfl, h2, h3⟩)
        · exact Or.inl h
        · exact Or.inr ⟨h2, h3, rfl⟩
    · intro i hi hiq hip c hc
      simp only [List.mem_singleton] at hi
      subst hi
      exact absurd hip hp
    · intro j hj hj0
      simp only [List.mem_singleton] at hj
      exact absurd hj hj0
    · simp only [List.length_nil, List.length_singleton]
      omega

/-- Characterization of one breadth-first pass: the final state has the same
shape; every visited node's flag follows the visitor's spec, every other
flag is untouched; and the render list collects exactly the visited nodes
the visitor pushed. -/
theorem breadthFirst_char (init : QTState)
    (visit : QTState → Nat → QTState × Bool)
    (pred writes newflag push : Nat → Bool)
    (hwf : ArenaWF init) (hvs : VisitSpec init visit pred writes newflag push)
    (hN : 0 < init.nodes.length) :
    SameShape init (breadthFirst visit init) ∧
    (∀ j : Nat, BfsVisited (childrenOf init) pred j →
      flagOf (breadthFirst visit init) j
        = (if writes j = true then newflag j else flagOf init j)) ∧
    (∀ j : Nat, ¬ BfsVisited (childrenOf init) pred j →
      flagOf (breadthFirst visit init) j = flagOf init j) ∧
    (∀ j : Nat, j ∈ (breadthFirst visit init).visible_nodes ↔
      (j ∈ init.visible_nodes ∨ (BfsVisited (childrenOf init) pred j ∧
        writes j = true ∧ push j = true))) := by
  obtain ⟨done, hInv⟩ :=
    breadthFirst_inv init visit pred writes newflag push hwf hvs hN
  have hcompl : ∀ j : Nat, BfsVisited (childrenOf init) pred j → j ∈ done := by
    intro j hj
    induction hj with
    | root => exact hInv.rootDone
    | step h1 h2 h3 ihv => exact hInv.childDone _ ihv (by simp) h2 _ h3
  refine ⟨hInv.shape, ?_, ?_, ?_⟩
  · intro j hj
    exact hInv.flagDone j (hcompl j hj)
  · intro j hj
    refine hInv.flagUndone j ?_
    intro hd
    exact hj (hInv.doneVisited j hd)
  · intro j
    rw [hInv.visChar j]
    constructor
    · rintro (h | ⟨h1, h2, h3⟩)
      · exact Or.inl h
      · exact Or.inr ⟨hInv.doneVisited j h1, h2, h3⟩
    · rintro (h | ⟨h1, h2, h3⟩)
      · exact Or.inl h
      · exact Or.inr ⟨hcompl j h1, h2, h3⟩

lemma phaseAVisit_spec (contains : Nat → Nat → Bool) (cutoff : ℚ)
    (init : QTState) :
    VisitSpec init (phaseAVisit contains cutoff) (predA contains cutoff init)
      (fun _ => true) (predA contains cutoff init) (fun _ => false) := by
  intro s n hn hshape hflag hch
  obtain ⟨nd, hnd⟩ := getElem?_isSome_of_lt (hshape.1 ▸ hn)
  obtain ⟨ndI, hndI⟩ := getElem?_isSome_of_lt hn
  have h2 := hshape.2 n
  rw [hndI, hnd] at h2
  simp only [Option.map_some', Option.some.injEq, Prod.mk.injEq] at h2
  unfold phaseAVisit predA applySpec
  rw [hnd, hndI]
  simp [hnd, hndI, h2.1, h2.2.1]

lemma phaseBVisit_spec (s1 : QTState) :
    VisitSpec s1 phaseBVisit (flagOf s1) (flagOf s1)
      (fun n => ! allChildVisible s1 n)
      (fun n => flagOf s1 n && ! allChildVisible s1 n) := by
  intro s n hn hshape hflag hch
  obtain ⟨nd, hnd⟩ := getElem?_isSome_of_lt (hshape.1 ▸ hn)
  obtain ⟨ndI, hndI⟩ := getElem?_isSome_of_lt hn
  have h2 := hshape.2 n
  rw [hndI, hnd] at h2
  simp only [Option.map_some', Option.some.injEq, Prod.mk.injEq] at h2
  have hflagn : flagOf s n = nd.visible := by
    unfold flagOf
    rw [hnd]
    rfl
  have hfv : nd.visible = flagOf s1 n := by
    rw [← hflagn, hflag]
  have hcmem : ∀ c : Nat, some c ∈ ndI.children → some c ∈ childrenOf s1 n := by
    intro c hc
    unfold childrenOf
    rw [hndI]
    simpa using hc
  have hall : nd.children.all (fun c =>
        match c with
        | some c => ((s.nodes[c]?).map QNode.visible).getD false
        | none => false) = allChildVisible s1 n := by
    unfold allChildVisible childrenOf
    rw [hndI]
    simp only [Option.map_some', Option.getD_some]
    rw [← h2.2.2]
    apply list_all_congr
    intro c hc
    cases c with
    | none => rfl
    | some c =>
      show ((s.nodes[c]?).map QNode.visible).getD false = flagOf s1 c
      exact hch c (hcmem c hc)
  unfold phaseBVisit applySpec
  rw [hnd]
  dsimp only
  cases hv : nd.visible with
  | false =>
    have hw : flagOf s1 n = false := by rw [← hfv, hv]
    simp [hw]
  | true =>
    have hw : flagOf s1 n = true := by rw [← hfv, hv]
    rw [hall]
    by_cases hac : allChildVisible s1 n = true
    · simp [hw, hac, hnd]
    · have hac' : allChildVisible s1 n = false := by
        revert hac
        cases allChildVisible s1 n <;> simp
      simp [hw, hac', hnd]

lemma reset_flag (s : QTState) (j : Nat) :
    flagOf (resetVisibility s) j = false := by
  unfold flagOf resetVisibility
  simp only [List.getElem?_map]
  cases s.nodes[j]? <;> rfl

lemma reset_sameShape (s : QTState) : SameShape s (resetVisibility s) := by
  constructor
  · simp [resetVisibility]
  · intro j
    simp only [resetVisibility, List.getElem?_map]
    cases s.nodes[j]? <;> rfl

lemma childrenOf_eq_nil_of_ge {st : QTState} {i : Nat}
    (h : st.nodes.length ≤ i) : childrenOf st i = [] := by
  unfold childrenOf
  rw [List.getElem?_eq_none_iff.mpr h]
  rfl

/-- C9: in update_visibility, a node that is tentatively visible after phase
A and whose four children are all tentatively visible ends the update
invisible and off the render list, while each such child that has no
tentatively visible children of its own stays visible and is on the render
list. -/
theorem quadtree_visibility_phase_b (contains : Nat → Nat → Bool)
    (cutoff : ℚ) (s : QTState) (hwf : ArenaWF s) (v c1 c2 c3 c4 : Nat)
    (hch : childrenOf (QuadTree.phaseA contains cutoff s) v
      = [some c1, some c2, some c3, some c4])
    (hv : flagOf (QuadTree.phaseA contains cutoff s) v = true)
    (hcvis : ∀ c ∈ [c1, c2, c3, c4],
      flagOf (QuadTree.phaseA contains cutoff s) c = true) :
    flagOf (QuadTree.update_visibility contains cutoff s) v = false ∧
    v ∉ (QuadTree.update_visibility contains cutoff s).visible_nodes ∧
    ∀ c ∈ [c1, c2, c3, c4],
      (∀ g : Nat, some g ∈ childrenOf (QuadTree.phaseA contains cutoff s) c →
        flagOf (QuadTree.phaseA contains cutoff s) g = false) →
      flagOf (QuadTree.update_visibility contains cutoff s) c = true ∧
      c ∈ (QuadTree.update_visibility contains cutoff s).visible_nodes := by
  have hwf0 : ArenaWF (resetVisibility s) :=
    arenaWF_of_shape (reset_sameShape s) hwf
  have hN : 0 < s.nodes.length := by
    by_contra h0
    have hlen : s.nodes.length = 0 := by omega
    have hreset : (resetVisibility s).nodes[0]? = none := by
      rw [List.getElem?_eq_none_iff]
      simp [resetVisibility, hlen]
    have hvisroot : phaseAVisit contains cutoff (resetVisibility s) 0
        = (resetVisibility s, false) := by
      unfold phaseAVisit
      rw [hreset]
    have hA : QuadTree.phaseA contains cutoff s = resetVisibility s := by
      unfold QuadTree.phaseA breadthFirst
      rw [hvisroot]
      rfl
    rw [hA, reset_flag] at hv
    exact absurd hv (by simp)
  have hN0 : 0 < (resetVisibility s).nodes.length := by
    simpa [resetVisibility] using hN
  obtain ⟨shapeA, flagAv, flagAnv, visA⟩ := breadthFirst_char (resetVisibility s)
    (phaseAVisit contains cutoff) (predA contains cutoff (resetVisibility s))
    (fun _ => true) (predA contains cutoff (resetVisibility s))
    (fun _ => false) hwf0 (phaseAVisit_spec contains cutoff (resetVisibility s))
    hN0
  have hs1 : QuadTree.phaseA contains cutoff s
      = breadthFirst (phaseAVisit contains cutoff) (resetVisibility s) := rfl
  set s1 := QuadTree.phaseA contains cutoff s with hs1def
  rw [← hs1] at shapeA flagAv flagAnv visA
  have hwf1 : ArenaWF s1 := arenaWF_of_shape shapeA hwf0
  have hN1 : 0 < s1.nodes.length := by
    rw [← shapeA.1]
    exact hN0
  -- phase A characterization: a raised flag means visited and predicate true
  have hflagA : ∀ j : Nat, flagOf s1 j = true →
      BfsVisited (childrenOf (resetVisibility s))
        (predA contains cutoff (resetVisibility s)) j ∧
      predA contains cutoff (resetVisibility s) j = true := by
    intro j hj
    by_cases hvis : BfsVisited (childrenOf (resetVisibility s))
        (predA contains cutoff (resetVisibility s)) j
    · refine ⟨hvis, ?_⟩
      have hfa := flagAv j hvis
      simp at hfa
      rw [hj] at hfa
      exact hfa.symm
    · have := flagAnv j hvis
      rw [hj, reset_flag] at this
      exact absurd this (by simp)
  -- a node visible after phase A is visited by phase B
  have hvisitedB0 : ∀ j : Nat,
      BfsVisited (childrenOf (resetVisibility s))
        (predA contains cutoff (resetVisibility s)) j →
      BfsVisited (childrenOf s1) (flagOf s1) j := by
    intro j hvis
    induction hvis with
    | root => exact BfsVisited.root
    | step h1 h2 h3 ihv =>
      rename_i i jc
      have hflagi : flagOf s1 i = true := by
        have hfa := flagAv i h1
        simp at hfa
        rw [hfa, h2]
      exact BfsVisited.step ihv hflagi
        (by rw [childrenOf_eq_of_shape shapeA]; exact h3)
  have hvisitedB : ∀ j : Nat, flagOf s1 j = true →
      BfsVisited (childrenOf s1) (flagOf s1) j :=
    fun j hj => hvisitedB0 j (hflagA j hj).1
  obtain ⟨shapeB, flagBv, flagBnv, visB⟩ := breadthFirst_char s1 phaseBVisit
    (flagOf s1) (flagOf s1) (fun n => ! allChildVisible s1 n)
    (fun n => flagOf s1 n && ! allChildVisible s1 n) hwf1
    (phaseBVisit_spec s1) hN1
  have hs2 : QuadTree.update_visibility contains cutoff s
      = breadthFirst phaseBVisit s1 := rfl
  rw [hs2]
  -- phase A leaves the render list empty
  have hvis1 : ∀ j : Nat, j ∉ s1.visible_nodes := by
    intro j hj
    rcases (visA j).mp hj with h | ⟨-, -, h⟩
    · rw [show (resetVisibility s).visible_nodes = [] from rfl] at h
      exact absurd h (by simp)
    · exact absurd h (by simp)
  have hBv : BfsVisited (childrenOf s1) (flagOf s1) v := hvisitedB v hv
  have hallv : allChildVisible s1 v = true := by
    unfold allChildVisible
    rw [hch]
    simp [hcvis c1 (by simp), hcvis c2 (by simp), hcvis c3 (by simp),
      hcvis c4 (by simp)]
  refine ⟨?_, ?_, ?_⟩
  · rw [flagBv v hBv]
    simp [hv, hallv]
  · intro hmem
    rcases (visB v).mp hmem with h | ⟨-, -, h⟩
    · exact hvis1 v h
    · rw [hv, hallv] at h
      exact absurd h (by simp)
  · intro c hc hnochild
    have hcflag : flagOf s1 c = true := hcvis c hc
    have hcN : c < s1.nodes.length := by
      by_contra hge
      have : flagOf s1 c = false := by
        unfold flagOf
        rw [List.getElem?_eq_none_iff.mpr (by omega)]
        rfl
      rw [this] at hcflag
      exact absurd hcflag (by simp)
    have hBc : BfsVisited (childrenOf s1) (flagOf s1) c := by
      refine BfsVisited.step hBv hv ?_
      rw [hch]
      simpa using hc
    have hacc : allChildVisible s1 c = false := by
      unfold allChildVisible
      have hlen4 : (childrenOf s1 c).length = 4 := hwf1.1 c hcN
      cases hl : childrenOf s1 c with
      | nil => rw [hl] at hlen4; simp at hlen4
      | cons hd tl =>
        cases hd with
        | none => simp [List.all_cons]
        | some g =>
          have hg : flagOf s1 g = false :=
            hnochild g (by rw [hl]; exact List.mem_cons_self _ _)
          simp [List.all_cons, hg]
    refine ⟨?_, ?_⟩
    · rw [flagBv c hBc]
      simp [hcflag, hacc]
    · rw [visB c]
      exact Or.inr ⟨hBc, hcflag, by rw [hcflag, hacc]; rfl⟩

/-- Concrete five-node arena for the C9 witness: the root with four leaf
children, all with priority 1 and no required layers. -/
def c9Arena : QTState :=
  ⟨[⟨1, [], [some 1, some 2, some 3, some 4], false⟩,
    ⟨1, [], [none, none, none, none], false⟩,
    ⟨1, [], [none, none, none, none], false⟩,
    ⟨1, [], [none, none, none, none], false⟩,
    ⟨1, [], [none, none, none, none], false⟩], []⟩

lemma c9Arena_wf : ArenaWF c9Arena := by
  have hlen : c9Arena.nodes.length = 5 := rfl
  have hmem : ∀ i j : Nat, some j ∈ childrenOf c9Arena i → i < 5 := by
    intro i j hj
    by_contra h
    rw [childrenOf_eq_nil_of_ge (by omega)] at hj
    exact absurd hj (by simp)
  refine ⟨?_, ?_, ?_, ?_⟩
  · intro i hi
    rw [hlen] at hi
    interval_cases i <;> rfl
  · intro i j hj
    have hi := hmem i j hj
    rw [hlen]
    interval_cases i <;> simp [childrenOf, c9Arena] at hj <;> omega
  · intro i
    by_cases hi : i < 5
    · interval_cases i <;> decide
    · rw [childrenOf_eq_nil_of_ge (by omega)]
      exact List.nodup_nil
  · intro i₁ i₂ j h1 h2
    have hi₁ := hmem i₁ j h1
    have hi₂ := hmem i₂ j h2
    interval_cases i₁ <;> interval_cases i₂ <;>
      simp [childrenOf, c9Arena] at h1 h2 <;> omega

/-- Closed witness for quadtree_visibility_phase_b on the concrete arena:
the root ends invisible and off the render list, child 1 stays visible and
is rendered. -/
theorem quadtree_visibility_phase_b_witness :
    flagOf (QuadTree.update_visibility (fun _ _ => true) 0 c9Arena) 0 = false ∧
    0 ∉ (QuadTree.update_visibility (fun _ _ => true) 0 c9Arena).visible_nodes ∧
    flagOf (QuadTree.update_visibility (fun _ _ => true) 0 c9Arena) 1 = true ∧
    1 ∈ (QuadTree.update_visibility (fun _ _ => true) 0 c9Arena).visible_nodes := by
  obtain ⟨h1, h2, h3⟩ := quadtree_visibility_phase_b (fun _ _ => true) 0
    c9Arena c9Arena_wf 0 1 2 3 4 (by decide) (by decide) (by decide)
  have hleaf : childrenOf (QuadTree.phaseA (fun _ _ => true) 0 c9Arena) 1
      = [none, none, none, none] := by decide
  have h4 := h3 1 (by simp) (fun g hg => by
    rw [hleaf] at hg
    simp at hg)
  exact ⟨h1, h2, h4.1, h4.2⟩

end Terra
